import Mathlib

/-!
Shallow embedding of the Lox lexical scanner from `src/pox/scanner.py`
(class `Scanner`, class `ScannerError`), together with the token model
from `src/pox/lox_token.py` (`Token`) and `src/pox/lox_token_types.py`
(`TokenType`).

Modelling conventions:
* Python strings are `List Char`; the scanner state is a record holding
  the same five fields as the Python instance (`source`, `tokens`,
  `start`, `current`, `line`).
* Python `str.isalpha` / `str.isdigit` are modelled by `Char.isAlpha` /
  `Char.isDigit`, i.e. on the ASCII range exercised by the language;
  Python additionally accepts some non-ASCII Unicode letters and digits,
  which no part of the specification depends on.
* Python `float(...)` applied to the numeric lexemes the scanner builds
  (digits, optionally a dot and digits) is modelled by the exact decimal
  value as a rational number.
* The three `while` loops of the scanner and the `scanTokens` driver
  loop are written with an explicit fuel argument.  Every call site
  passes fuel `source.length - current` (respectively `+ 1` for the
  driver), which is proved adequate: each iteration consumes at least
  one character, so the guard is already false whenever the fuel runs
  out (`stringLoopF_spec` etc., `scanLoopF_isAtEnd`).  This keeps every
  definition structurally recursive and executable by `rfl`/`decide`.
* `Scanner.__advance` reads `source[current]`; it is modelled with
  `List.getD _ _ '\x00'`.  In the Python code `__advance` is only ever
  invoked with `current < len(source)` (each call is guarded by
  `__isAtEnd` or by a peek that returns `'\x00'` at the end), so the
  default is never read.
-/

namespace PoxScanner

/-- Token kinds, from `lox_token_types.py` (`class TokenType`). -/
inductive TokenType where
  | LEFT_PAREN | RIGHT_PAREN | LEFT_BRACE | RIGHT_BRACE
  | COMMA | DOT | MINUS | PLUS | SEMICOLON | SLASH | STAR
  | BANG | BANG_EQUAL | EQUAL | EQUAL_EQUAL
  | GREATER | GREATER_EQUAL | LESS | LESS_EQUAL
  | IDENTIFIER | STRING | NUMBER
  | AND | CLASS | ELSE | FALSE | FUN | FOR | IF | NIL | OR
  | PRINT | RETURN | SUPER | THIS | TRUE | VAR | WHILE
  | EOF
deriving DecidableEq, Repr

/-- Literal payload of a token (`Token.literal` in `lox_token.py` is a
Python `object`: `None`, a `float` for numbers, or a `str` for strings).
Python floats are modelled as exact rationals (see the header note). -/
inductive Literal where
  | none
  | num (v : ℚ)
  | str (s : List Char)
deriving DecidableEq, Repr

/-- A Lox token, from `lox_token.py` (`@dataclass(frozen=True) class Token`).
Dataclass equality is value equality, hence `DecidableEq`. -/
structure Token where
  type : TokenType
  lexeme : List Char
  literal : Literal
  line : Nat
deriving DecidableEq, Repr

/-- The scanner error, from `scanner.py` (`class ScannerError`), carrying
the 1-based line and the message. -/
structure ScannerError where
  line : Nat
  message : List Char
deriving DecidableEq, Repr

/-- The instance state of `class Scanner`: the five fields set up by
`Scanner.__init__`. -/
structure ScannerState where
  source : List Char
  tokens : List Token
  start : Nat
  current : Nat
  line : Nat
deriving DecidableEq, Repr

/-- Python `str.isalpha`, on the ASCII range (see header note). -/
def pyIsAlpha (c : Char) : Bool := c.isAlpha

/-- Python `str.isdigit`, on the ASCII range (see header note). -/
def pyIsDigit (c : Char) : Bool := c.isDigit

/-- The guard of the loop in `Scanner.__identifier`:
`(c := self.__peek()).isalpha() or c.isdigit() or c == "_"`. -/
def isIdentChar (c : Char) : Bool := pyIsAlpha c || pyIsDigit c || c = '_'

/-- Python slice `l[a:b]` (for the non-negative indices the scanner uses). -/
def pySlice (l : List Char) (a b : Nat) : List Char := (l.take b).drop a

/-- Number of newline characters in a character list. -/
def countNL (l : List Char) : Nat := l.countP (fun c => c = '\n')

/-- Is the character distinct from the double quote (the continuation
condition of the `__string` loop, as the loop body sees it). -/
def notQuote (c : Char) : Bool := c ≠ '"'

/-- Is the character distinct from the newline (the continuation condition
of the comment loop, as the loop body sees it). -/
def notNL (c : Char) : Bool := c ≠ '\n'

/-- The reserved-word table `Scanner.KEYWORDS` (a `dict` with these sixteen
distinct keys), as an association list. -/
def KEYWORDS_LIST : List (List Char × TokenType) :=
  [("and".data, TokenType.AND), ("class".data, TokenType.CLASS),
   ("else".data, TokenType.ELSE), ("false".data, TokenType.FALSE),
   ("for".data, TokenType.FOR), ("fun".data, TokenType.FUN),
   ("if".data, TokenType.IF), ("nil".data, TokenType.NIL),
   ("or".data, TokenType.OR), ("print".data, TokenType.PRINT),
   ("return".data, TokenType.RETURN), ("super".data, TokenType.SUPER),
   ("this".data, TokenType.THIS), ("true".data, TokenType.TRUE),
   ("var".data, TokenType.VAR), ("while".data, TokenType.WHILE)]

/-- Dictionary lookup `self.KEYWORDS[text]`, with `KeyError` mapped to
`none` (the `try`/`except KeyError` in `Scanner.__identifier`). -/
def KEYWORDS (text : List Char) : Option TokenType :=
  (KEYWORDS_LIST.find? (fun p => p.1 = text)).map (fun p => p.2)

/-- `Scanner.__init__(code)`: empty token list, `start = current = 0`,
`line = 1`. -/
def initState (code : List Char) : ScannerState :=
  { source := code, tokens := [], start := 0, current := 0, line := 1 }

/-- `Scanner.__isAtEnd`: `self.current >= len(self.source)`. -/
def isAtEnd (s : ScannerState) : Bool := decide (s.source.length ≤ s.current)

/-- `Scanner.__advance`: return `source[current]` and increment `current`. -/
def advance (s : ScannerState) : Char × ScannerState :=
  (s.source.getD s.current '\x00', { s with current := s.current + 1 })

/-- `Scanner.__peek`: `'\0'` at or past the end, else `source[current]`. -/
def peek (s : ScannerState) : Char :=
  if isAtEnd s then '\x00' else s.source.getD s.current '\x00'

/-- `Scanner.__peekNext`: `'\0'` if `current + 1 >= len(source)`, else
`source[current + 1]`. -/
def peekNext (s : ScannerState) : Char :=
  if s.source.length ≤ s.current + 1 then '\x00'
  else s.source.getD (s.current + 1) '\x00'

/-- `Scanner.__match(expected)`: conditional advance. -/
def matchExpected (s : ScannerState) (expected : Char) : Bool × ScannerState :=
  if isAtEnd s then (false, s)
  else if s.source.getD s.current '\x00' ≠ expected then (false, s)
  else (true, { s with current := s.current + 1 })

/-- `Scanner.__addToken(tokentype, literal)`: append a token whose lexeme is
`source[start:current]` and whose line is the current line. -/
def addToken (s : ScannerState) (tokentype : TokenType) (literal : Literal) :
    ScannerState :=
  { s with tokens := s.tokens ++
      [{ type := tokentype, lexeme := pySlice s.source s.start s.current,
         literal := literal, line := s.line }] }

/-- Fuel remaining to the end of the source; the fuel every loop below is
started with (proved adequate by the `*_spec` lemmas). -/
def remaining (s : ScannerState) : Nat := s.source.length - s.current

/-- The comment loop in `Scanner.__scanToken`, `/` branch:
`while self.__peek() != "\n" and not self.__isAtEnd(): self.__advance()`. -/
def commentLoopF : Nat → ScannerState → ScannerState
  | 0, s => s
  | fuel + 1, s =>
    if peek s ≠ '\n' ∧ ¬ isAtEnd s then commentLoopF fuel (advance s).2 else s

/-- The loop in `Scanner.__string`:
`while self.__peek() != '"' and not self.__isAtEnd():` with a line bump on
each embedded newline, then `self.__advance()`. -/
def stringLoopF : Nat → ScannerState → ScannerState
  | 0, s => s
  | fuel + 1, s =>
    if peek s ≠ '"' ∧ ¬ isAtEnd s then
      stringLoopF fuel
        (advance (if peek s = '\n' then { s with line := s.line + 1 } else s)).2
    else s

/-- The digit loops in `Scanner.__number`:
`while self.__peek().isdigit(): self.__advance()`. -/
def digitsLoopF : Nat → ScannerState → ScannerState
  | 0, s => s
  | fuel + 1, s =>
    if pyIsDigit (peek s) then digitsLoopF fuel (advance s).2 else s

/-- The loop in `Scanner.__identifier`:
`while (c := self.__peek()).isalpha() or c.isdigit() or c == "_": ...`. -/
def identLoopF : Nat → ScannerState → ScannerState
  | 0, s => s
  | fuel + 1, s =>
    if isIdentChar (peek s) then identLoopF fuel (advance s).2 else s

/-- Message of the unterminated-string error in `Scanner.__string`. -/
def untermMsg : List Char := "Unterminated string at end of file.".data

/-- Message of the unexpected-character error in `Scanner.__scanToken`
(the f-string interpolating the offending character). -/
def unexpectedMsg (c : Char) : List Char :=
  "Unexpected character: ".data ++ [c]

/-- `Scanner.__string` (called after the opening quote was consumed). -/
def scanString (s0 : ScannerState) : Except ScannerError ScannerState :=
  let s := stringLoopF (remaining s0) s0
  if isAtEnd s then
    .error { line := s.line, message := untermMsg }
  else
    let s1 := (advance s).2
    .ok (addToken s1 TokenType.STRING
      (Literal.str (pySlice s1.source (s1.start + 1) (s1.current - 1))))

/-- The exact rational value of a numeric lexeme (digits, optionally
followed by a dot and digits); models `float(...)` in `Scanner.__number`
(see the header note). -/
def pyFloat (cs : List Char) : ℚ :=
  let ip := cs.takeWhile (fun c => c ≠ '.')
  match cs.dropWhile (fun c => c ≠ '.') with
  | [] => ((Nat.ofDigits 10 ((ip.map (fun c => c.toNat - 48)).reverse) : Nat) : ℚ)
  | _ :: frac =>
      ((Nat.ofDigits 10 ((ip.map (fun c => c.toNat - 48)).reverse) : Nat) : ℚ) +
        ((Nat.ofDigits 10 ((frac.map (fun c => c.toNat - 48)).reverse) : Nat) : ℚ) /
          (10 : ℚ) ^ frac.length

/-- `Scanner.__number` (called after the leading digit was consumed). -/
def scanNumber (s0 : ScannerState) : ScannerState :=
  let s := digitsLoopF (remaining s0) s0
  let s1 :=
    if peek s = '.' ∧ pyIsDigit (peekNext s) then
      let s2 := (advance s).2
      digitsLoopF (remaining s2) s2
    else s
  addToken s1 TokenType.NUMBER
    (Literal.num (pyFloat (pySlice s1.source s1.start s1.current)))

/-- `Scanner.__identifier` (called after the leading character was
consumed): consume the identifier tail, then look the lexeme up in
`KEYWORDS`, defaulting to `IDENTIFIER`.  The code passes no literal, so
`__addToken` uses its default `literal=None`. -/
def scanIdentifier (s0 : ScannerState) : ScannerState :=
  let s := identLoopF (remaining s0) s0
  addToken s ((KEYWORDS (pySlice s.source s.start s.current)).getD
    TokenType.IDENTIFIER) Literal.none

/-- `Scanner.__scanToken`: consume one character and dispatch.  The Python
`match` statement tries its cases in order; it is rendered as the
equivalent `if`-chain.  `'\x7b'`/`'\x7d'` are the brace characters. -/
def scanToken (s0 : ScannerState) : Except ScannerError ScannerState :=
  let c := (advance s0).1
  let s := (advance s0).2
  if c = '(' then .ok (addToken s TokenType.LEFT_PAREN Literal.none)
  else if c = ')' then .ok (addToken s TokenType.RIGHT_PAREN Literal.none)
  else if c = '\x7b' then .ok (addToken s TokenType.LEFT_BRACE Literal.none)
  else if c = '\x7d' then .ok (addToken s TokenType.RIGHT_BRACE Literal.none)
  else if c = ',' then .ok (addToken s TokenType.COMMA Literal.none)
  else if c = '.' then .ok (addToken s TokenType.DOT Literal.none)
  else if c = '-' then .ok (addToken s TokenType.MINUS Literal.none)
  else if c = '+' then .ok (addToken s TokenType.PLUS Literal.none)
  else if c = ';' then .ok (addToken s TokenType.SEMICOLON Literal.none)
  else if c = '*' then .ok (addToken s TokenType.STAR Literal.none)
  else if c = '!' then
    let m := matchExpected s '='
    .ok (addToken m.2 (if m.1 then TokenType.BANG_EQUAL else TokenType.BANG)
      Literal.none)
  else if c = '=' then
    let m := matchExpected s '='
    .ok (addToken m.2 (if m.1 then TokenType.EQUAL_EQUAL else TokenType.EQUAL)
      Literal.none)
  else if c = '<' then
    let m := matchExpected s '='
    .ok (addToken m.2 (if m.1 then TokenType.LESS_EQUAL else TokenType.LESS)
      Literal.none)
  else if c = '>' then
    let m := matchExpected s '='
    .ok (addToken m.2
      (if m.1 then TokenType.GREATER_EQUAL else TokenType.GREATER)
      Literal.none)
  else if c = '/' then
    let m := matchExpected s '/'
    if m.1 then .ok (commentLoopF (remaining m.2) m.2)
    else .ok (addToken m.2 TokenType.SLASH Literal.none)
  else if c = ' ' ∨ c = '\r' ∨ c = '\t' then .ok s
  else if c = '\n' then .ok { s with line := s.line + 1 }
  else if c = '"' then scanString s
  else if c = '0' ∨ c = '1' ∨ c = '2' ∨ c = '3' ∨ c = '4' ∨ c = '5' ∨
      c = '6' ∨ c = '7' ∨ c = '8' ∨ c = '9' then .ok (scanNumber s)
  else if pyIsAlpha c ∨ c = '_' then .ok (scanIdentifier s)
  else .error { line := s.line, message := unexpectedMsg c }

/-- The `while not self.__isAtEnd():` driver loop of `Scanner.scanTokens`:
set `start = current`, scan one token, repeat.  A raised `ScannerError`
propagates (aborting the scan). -/
def scanLoopF : Nat → ScannerState → Except ScannerError ScannerState
  | 0, s => .ok s
  | fuel + 1, s =>
    if isAtEnd s then .ok s
    else
      match scanToken { s with start := s.current } with
      | .error e => .error e
      | .ok s1 => scanLoopF fuel s1

/-- `Scanner.scanTokens` as a method on the instance state: run the driver
loop, then append the EOF token (empty lexeme, `literal=None`, the final
line) to `self.tokens` and return the instance.  The fuel
`remaining + 1` is adequate (`scanLoopF_isAtEnd`). -/
def scanTokensMethod (s : ScannerState) : Except ScannerError ScannerState :=
  (scanLoopF (remaining s + 1) s).map fun s1 =>
    { s1 with tokens := s1.tokens ++
        [{ type := TokenType.EOF, lexeme := [], literal := Literal.none,
           line := s1.line }] }

/-- `Scanner(code).scanTokens()`: a fresh scanner run on `code`; the Python
method returns `self.tokens`. -/
def scanTokens (code : List Char) : Except ScannerError (List Token) :=
  (scanTokensMethod (initState code)).map (fun s => s.tokens)

/-- The set of characters that begin some case of `Scanner.__scanToken`
other than the final error case (the enumeration of the match arms). -/
def startsToken (c : Char) : Bool :=
  c = '(' || c = ')' || c = '\x7b' || c = '\x7d' || c = ',' || c = '.' ||
  c = '-' || c = '+' || c = ';' || c = '*' || c = '!' || c = '=' ||
  c = '<' || c = '>' || c = '/' || c = ' ' || c = '\r' || c = '\t' ||
  c = '\n' || c = '"' || pyIsDigit c || pyIsAlpha c || c = '_'

/-- One iteration of the `scanTokens` driver loop that does not raise:
the scanner is not at the end, `start` is reset to `current`, and
`__scanToken` returns normally. -/
def Step (s s1 : ScannerState) : Prop :=
  ¬ isAtEnd s ∧ scanToken { s with start := s.current } = .ok s1

/-- The states the driver loop passes through, as the reflexive-transitive
closure of `Step`. -/
def Reaches : ScannerState → ScannerState → Prop :=
  Relation.ReflTransGen Step

/-- The state invariant of claim C8: `0 <= start <= current <= len(source)`
(the lower bound is inherent in `Nat`), plus the exact line accounting
used to prove the line claims: `line` is one more than the number of
newline characters consumed so far. -/
def Inv (s : ScannerState) : Prop :=
  s.start ≤ s.current ∧ s.current ≤ s.source.length ∧
    s.line = 1 + countNL (s.source.take s.current)

/-- What the driver loop guarantees of every token it appends (used for
claims C1 and C7): it is not an EOF token, and its line is one plus the
number of newlines strictly before the end of its lexeme, which is a
slice `source[st:e]`. -/
def GoodTok (src : List Char) (t : Token) : Prop :=
  t.type ≠ TokenType.EOF ∧
    ∃ st e, st ≤ e ∧ e ≤ src.length ∧ t.lexeme = pySlice src st e ∧
      t.line = 1 + countNL (src.take e)

/-- Everything one successful `__scanToken` call guarantees, relating the
state before (`s0`, with `start` already reset to `current`) to the state
after (`s1`): the source and `start` are untouched, at least one character
is consumed, the cursor stays in bounds, the line counter grows
monotonically and keeps counting newlines exactly, and the appended
tokens (zero or one) are all `GoodTok`. -/
def StepConcl (s0 s1 : ScannerState) : Prop :=
  s1.source = s0.source ∧ s1.start = s0.start ∧ s0.current < s1.current ∧
  s1.current ≤ s0.source.length ∧ s0.line ≤ s1.line ∧
  s1.line = 1 + countNL (s1.source.take s1.current) ∧
  ∃ ts, s1.tokens = s0.tokens ++ ts ∧ ∀ t ∈ ts, GoodTok s0.source t

/-! ## Basic facts about the cursor primitives -/

theorem isAtEnd_iff {s : ScannerState} :
    isAtEnd s = true ↔ s.source.length ≤ s.current := by
  simp [isAtEnd]

theorem not_isAtEnd_iff {s : ScannerState} :
    ¬ isAtEnd s = true ↔ s.current < s.source.length := by
  simp [isAtEnd]

theorem peek_eq_getD (s : ScannerState) :
    peek s = s.source.getD s.current '\x00' := by
  unfold peek
  split
  · rename_i h
    rw [isAtEnd_iff] at h
    simp [List.getD_eq_getElem?_getD, List.getElem?_eq_none h]
  · rfl

theorem peek_eq_getElem {s : ScannerState} (h : s.current < s.source.length) :
    peek s = s.source[s.current] := by
  rw [peek_eq_getD]
  simp [List.getD_eq_getElem?_getD, List.getElem?_eq_getElem h]

theorem advance_snd (s : ScannerState) :
    (advance s).2 = { s with current := s.current + 1 } := rfl

/-! ## Characterizations of the four scanner loops

Each loop is always called with fuel `remaining = source.length - current`.
The lemmas below show that this fuel is adequate: with at least that much
fuel the loop consumes exactly the `takeWhile` of its continuation
condition on the unread suffix of the source, bumping `line` for the
newlines it consumes (only the string loop can consume newlines). -/

theorem stringLoopF_spec :
    ∀ (fuel : Nat) (s : ScannerState), s.source.length - s.current ≤ fuel →
    stringLoopF fuel s =
      { s with
        current := s.current + ((s.source.drop s.current).takeWhile notQuote).length,
        line := s.line + countNL ((s.source.drop s.current).takeWhile notQuote) } := by
  intro fuel
  induction fuel with
  | zero =>
    intro s h
    have hc : s.source.length ≤ s.current := by omega
    rw [stringLoopF, List.drop_eq_nil_of_le hc]
    simp [countNL]
  | succ fuel ih =>
    intro s h
    by_cases hend : s.source.length ≤ s.current
    · rw [stringLoopF, List.drop_eq_nil_of_le hend, if_neg]
      · simp [countNL]
      · simp [isAtEnd, hend]
    · push_neg at hend
      have hdrop : s.source.drop s.current =
          s.source[s.current] :: s.source.drop (s.current + 1) :=
        List.drop_eq_getElem_cons hend
      have hpeek : peek s = s.source[s.current] := peek_eq_getElem hend
      by_cases hq : s.source[s.current] = '"'
      · rw [stringLoopF, if_neg (by simp [hpeek, hq]), hdrop,
          List.takeWhile_cons_of_neg (by simp [notQuote, hq])]
        simp [countNL]
      · rw [stringLoopF,
          if_pos ⟨by simp [hpeek, hq], by simp [isAtEnd, hend]⟩]
        have hstep :
            (advance (if peek s = '\n' then { s with line := s.line + 1 }
              else s)).2 =
            { s with current := s.current + 1,
                     line := s.line +
                       if s.source[s.current] = '\n' then 1 else 0 } := by
          by_cases hn : s.source[s.current] = '\n' <;>
            simp [advance, hpeek, hn]
        rw [hstep, ih _ (by simp only [List.length_drop]; omega)]
        rw [hdrop, List.takeWhile_cons_of_pos (by simp [notQuote, hq])]
        simp only [List.length_cons, countNL, List.countP_cons,
          ScannerState.mk.injEq, true_and]
        refine ⟨by omega, ?_⟩
        by_cases hn : s.source[s.current] = '\n' <;> simp [hn]
        omega

theorem commentLoopF_spec :
    ∀ (fuel : Nat) (s : ScannerState), s.source.length - s.current ≤ fuel →
    commentLoopF fuel s =
      { s with
        current := s.current + ((s.source.drop s.current).takeWhile notNL).length } := by
  intro fuel
  induction fuel with
  | zero =>
    intro s h
    have hc : s.source.length ≤ s.current := by omega
    rw [commentLoopF, List.drop_eq_nil_of_le hc]
    simp
  | succ fuel ih =>
    intro s h
    by_cases hend : s.source.length ≤ s.current
    · rw [commentLoopF, List.drop_eq_nil_of_le hend, if_neg]
      · simp
      · simp [isAtEnd, hend]
    · push_neg at hend
      have hdrop : s.source.drop s.current =
          s.source[s.current] :: s.source.drop (s.current + 1) :=
        List.drop_eq_getElem_cons hend
      have hpeek : peek s = s.source[s.current] := peek_eq_getElem hend
      by_cases hq : s.source[s.current] = '\n'
      · rw [commentLoopF, if_neg (by simp [hpeek, hq]), hdrop,
          List.takeWhile_cons_of_neg (by simp [notNL, hq])]
        simp
      · rw [commentLoopF,
          if_pos ⟨by simp [hpeek, hq], by simp [isAtEnd, hend]⟩,
          advance_snd, ih _ (by simp only [ScannerState.mk.injEq, List.length_drop]; omega)]
        rw [hdrop, List.takeWhile_cons_of_pos (by simp [notNL, hq])]
        simp [ScannerState.mk.injEq]
        omega

theorem digitsLoopF_spec :
    ∀ (fuel : Nat) (s : ScannerState), s.source.length - s.current ≤ fuel →
    digitsLoopF fuel s =
      { s with
        current := s.current + ((s.source.drop s.current).takeWhile pyIsDigit).length } := by
  intro fuel
  induction fuel with
  | zero =>
    intro s h
    have hc : s.source.length ≤ s.current := by omega
    rw [digitsLoopF, List.drop_eq_nil_of_le hc]
    simp
  | succ fuel ih =>
    intro s h
    by_cases hend : s.source.length ≤ s.current
    · rw [digitsLoopF, List.drop_eq_nil_of_le hend, if_neg]
      · simp
      · have : peek s = '\x00' := by
          rw [peek_eq_getD]
          simp [List.getD_eq_getElem?_getD, List.getElem?_eq_none hend]
        simp [this, pyIsDigit]
    · push_neg at hend
      have hdrop : s.source.drop s.current =
          s.source[s.current] :: s.source.drop (s.current + 1) :=
        List.drop_eq_getElem_cons hend
      have hpeek : peek s = s.source[s.current] := peek_eq_getElem hend
      by_cases hq : pyIsDigit s.source[s.current]
      · rw [digitsLoopF, if_pos (by simp [hpeek, hq]),
          advance_snd, ih _ (by simp only [ScannerState.mk.injEq, List.length_drop]; omega)]
        rw [hdrop, List.takeWhile_cons_of_pos hq]
        simp [ScannerState.mk.injEq]
        omega
      · rw [digitsLoopF, if_neg (by simp [hpeek, hq]), hdrop,
          List.takeWhile_cons_of_neg hq]
        simp

theorem identLoopF_spec :
    ∀ (fuel : Nat) (s : ScannerState), s.source.length - s.current ≤ fuel →
    identLoopF fuel s =
      { s with
        current := s.current + ((s.source.drop s.current).takeWhile isIdentChar).length } := by
  intro fuel
  induction fuel with
  | zero =>
    intro s h
    have hc : s.source.length ≤ s.current := by omega
    rw [identLoopF, List.drop_eq_nil_of_le hc]
    simp
  | succ fuel ih =>
    intro s h
    by_cases hend : s.source.length ≤ s.current
    · rw [identLoopF, List.drop_eq_nil_of_le hend, if_neg]
      · simp
      · have : peek s = '\x00' := by
          rw [peek_eq_getD]
          simp [List.getD_eq_getElem?_getD, List.getElem?_eq_none hend]
        simp [this, isIdentChar, pyIsDigit, pyIsAlpha]
    · push_neg at hend
      have hdrop : s.source.drop s.current =
          s.source[s.current] :: s.source.drop (s.current + 1) :=
        List.drop_eq_getElem_cons hend
      have hpeek : peek s = s.source[s.current] := peek_eq_getElem hend
      by_cases hq : isIdentChar s.source[s.current]
      · rw [identLoopF, if_pos (by simp [hpeek, hq]),
          advance_snd, ih _ (by simp only [ScannerState.mk.injEq, List.length_drop]; omega)]
        rw [hdrop, List.takeWhile_cons_of_pos hq]
        simp [ScannerState.mk.injEq]
        omega
      · rw [identLoopF, if_neg (by simp [hpeek, hq]), hdrop,
          List.takeWhile_cons_of_neg hq]
        simp

/-! ## List helpers -/

theorem take_length_takeWhile (p : Char → Bool) :
    ∀ m : List Char, m.take (m.takeWhile p).length = m.takeWhile p := by
  intro m
  induction m with
  | nil => rfl
  | cons a l ih =>
    by_cases h : p a <;>
      simp [List.takeWhile_cons, h, List.take_succ_cons, ih]

theorem takeWhile_all {p : Char → Bool} {m : List Char}
    (h : ∀ c ∈ m, p c = true) : m.takeWhile p = m :=
  List.takeWhile_eq_self_iff.mpr h

theorem take_add (l : List Char) (i k : Nat) :
    l.take (i + k) = l.take i ++ (l.drop i).take k := by
  conv_rhs => rw [List.take_drop]
  have h1 : l.take i = (l.take (i + k)).take i := by
    rw [List.take_take]
    congr 1
    omega
  rw [h1, List.take_append_drop]

theorem countNL_append (l1 l2 : List Char) :
    countNL (l1 ++ l2) = countNL l1 + countNL l2 := by
  simp [countNL]

theorem countNL_take_add (l : List Char) (i k : Nat) :
    countNL (l.take (i + k)) = countNL (l.take i) + countNL ((l.drop i).take k) := by
  rw [take_add, countNL_append]

theorem pySlice_eq_take_drop {a b : Nat} (l : List Char) (hab : a ≤ b) :
    pySlice l a b = (l.drop a).take (b - a) := by
  unfold pySlice
  rw [List.take_drop]
  have hb : a + (b - a) = b := by omega
  rw [hb]

theorem pySlice_takeWhile (l : List Char) (i : Nat) (p : Char → Bool) :
    pySlice l i (i + ((l.drop i).takeWhile p).length) = (l.drop i).takeWhile p := by
  rw [pySlice_eq_take_drop _ (by omega)]
  have h : i + ((l.drop i).takeWhile p).length - i =
      ((l.drop i).takeWhile p).length := by omega
  rw [h, take_length_takeWhile]

/-! ## Character facts -/

theorem digit_cases {c : Char} (h : pyIsDigit c = true) :
    c = '0' ∨ c = '1' ∨ c = '2' ∨ c = '3' ∨ c = '4' ∨ c = '5' ∨ c = '6' ∨
    c = '7' ∨ c = '8' ∨ c = '9' := by
  simp [pyIsDigit, Char.isDigit] at h
  obtain ⟨h1, h2⟩ := h
  rw [UInt32.le_def, BitVec.le_def] at h1 h2
  have hb1 : 48 ≤ c.toNat := h1
  have hb2 : c.toNat ≤ 57 := h2
  have hofn : Char.ofNat c.toNat = c := Char.ofNat_toNat c
  interval_cases hn : c.toNat <;> rw [← hofn] <;> decide

theorem peekNext_eq_getD (s : ScannerState) :
    peekNext s = s.source.getD (s.current + 1) '\x00' := by
  unfold peekNext
  split
  · rename_i h
    simp [List.getD_eq_getElem?_getD, List.getElem?_eq_none h]
  · rfl

/-! ## Behaviour of the token-shape helpers `__string`, `__number`,
`__identifier` (each entered after `__scanToken` consumed the first
character of the lexeme) -/

theorem takeWhile_lt_of_mem {p : Char → Bool} {m : List Char} {x : Char}
    (hx : x ∈ m) (hpx : p x = false) :
    (m.takeWhile p).length < m.length := by
  rcases Nat.lt_or_ge (m.takeWhile p).length m.length with h | h
  · exact h
  · exfalso
    have he : m.takeWhile p = m := by
      have ht := take_length_takeWhile p m
      rw [List.take_of_length_le h] at ht
      exact ht.symm
    have := List.takeWhile_eq_self_iff.mp he x hx
    rw [hpx] at this
    cases this

theorem scanString_ok (s : ScannerState)
    (hterm : '"' ∈ s.source.drop s.current) :
    scanString s =
      .ok { s with
        current := s.current +
          ((s.source.drop s.current).takeWhile notQuote).length + 1,
        line := s.line + countNL ((s.source.drop s.current).takeWhile notQuote),
        tokens := s.tokens ++
          [{ type := TokenType.STRING,
             lexeme := pySlice s.source s.start
               (s.current + ((s.source.drop s.current).takeWhile notQuote).length + 1),
             literal := Literal.str (pySlice s.source (s.start + 1)
               (s.current + ((s.source.drop s.current).takeWhile notQuote).length)),
             line := s.line +
               countNL ((s.source.drop s.current).takeWhile notQuote) }] } := by
  have hlt : ((s.source.drop s.current).takeWhile notQuote).length <
      (s.source.drop s.current).length :=
    takeWhile_lt_of_mem hterm (by decide)
  rw [List.length_drop] at hlt
  unfold scanString remaining
  rw [stringLoopF_spec _ _ (Nat.le_refl _)]
  rw [if_neg (by simp [isAtEnd]; omega)]
  simp only [advance, addToken, pySlice]
  simp [ScannerState.mk.injEq, Token.mk.injEq]

theorem scanString_err (s : ScannerState)
    (hterm : ∀ c ∈ s.source.drop s.current, c ≠ '"') :
    scanString s =
      .error { line := s.line + countNL (s.source.drop s.current),
               message := untermMsg } := by
  have hall : (s.source.drop s.current).takeWhile notQuote =
      s.source.drop s.current :=
    takeWhile_all (fun c hc => by simp [notQuote, hterm c hc])
  unfold scanString remaining
  rw [stringLoopF_spec _ _ (Nat.le_refl _), hall]
  rw [if_pos (by simp [isAtEnd, List.length_drop]; omega)]

theorem scanNumber_nodot (s : ScannerState)
    (hnd : ¬ (s.source.getD
        (s.current + ((s.source.drop s.current).takeWhile pyIsDigit).length)
        '\x00' = '.' ∧
      pyIsDigit (s.source.getD
        (s.current + ((s.source.drop s.current).takeWhile pyIsDigit).length + 1)
        '\x00') = true)) :
    scanNumber s =
      { s with
        current := s.current + ((s.source.drop s.current).takeWhile pyIsDigit).length,
        tokens := s.tokens ++
          [{ type := TokenType.NUMBER,
             lexeme := pySlice s.source s.start
               (s.current + ((s.source.drop s.current).takeWhile pyIsDigit).length),
             literal := Literal.num (pyFloat (pySlice s.source s.start
               (s.current + ((s.source.drop s.current).takeWhile pyIsDigit).length))),
             line := s.line }] } := by
  unfold scanNumber remaining
  rw [digitsLoopF_spec _ _ (Nat.le_refl _)]
  simp only [peek_eq_getD, peekNext_eq_getD]
  rw [if_neg hnd]
  simp [addToken]

theorem scanNumber_dot (s : ScannerState)
    (hd : s.source.getD
        (s.current + ((s.source.drop s.current).takeWhile pyIsDigit).length)
        '\x00' = '.' ∧
      pyIsDigit (s.source.getD
        (s.current + ((s.source.drop s.current).takeWhile pyIsDigit).length + 1)
        '\x00') = true) :
    scanNumber s =
      { s with
        current := s.current + ((s.source.drop s.current).takeWhile pyIsDigit).length +
          1 +
          ((s.source.drop
            (s.current + ((s.source.drop s.current).takeWhile pyIsDigit).length + 1)).takeWhile
              pyIsDigit).length,
        tokens := s.tokens ++
          [{ type := TokenType.NUMBER,
             lexeme := pySlice s.source s.start
               (s.current + ((s.source.drop s.current).takeWhile pyIsDigit).length + 1 +
                 ((s.source.drop
                   (s.current + ((s.source.drop s.current).takeWhile pyIsDigit).length + 1)).takeWhile
                     pyIsDigit).length),
             literal := Literal.num (pyFloat (pySlice s.source s.start
               (s.current + ((s.source.drop s.current).takeWhile pyIsDigit).length + 1 +
                 ((s.source.drop
                   (s.current + ((s.source.drop s.current).takeWhile pyIsDigit).length + 1)).takeWhile
                     pyIsDigit).length))),
             line := s.line }] } := by
  unfold scanNumber remaining
  rw [digitsLoopF_spec _ _ (Nat.le_refl _)]
  simp only [peek_eq_getD, peekNext_eq_getD]
  rw [if_pos hd, advance_snd]
  rw [digitsLoopF_spec _ _ (Nat.le_refl _)]
  simp [addToken]

theorem scanIdentifier_spec (s : ScannerState) :
    scanIdentifier s =
      { s with
        current := s.current + ((s.source.drop s.current).takeWhile isIdentChar).length,
        tokens := s.tokens ++
          [{ type := (KEYWORDS (pySlice s.source s.start
               (s.current + ((s.source.drop s.current).takeWhile isIdentChar).length))).getD
                 TokenType.IDENTIFIER,
             lexeme := pySlice s.source s.start
               (s.current + ((s.source.drop s.current).takeWhile isIdentChar).length),
             literal := Literal.none,
             line := s.line }] } := by
  unfold scanIdentifier remaining
  rw [identLoopF_spec _ _ (Nat.le_refl _)]
  simp [addToken]

/-! ## Small facts feeding the `__scanToken` case analysis -/

theorem ne_of_pred {p : Char → Bool} {c x : Char} (hc : p c = true)
    (hx : p x = false) : ¬ c = x := by
  intro he
  rw [he, hx] at hc
  cases hc

theorem KEYWORDS_getD_ne_EOF (text : List Char) :
    (KEYWORDS text).getD TokenType.IDENTIFIER ≠ TokenType.EOF := by
  unfold KEYWORDS
  match hf : KEYWORDS_LIST.find? (fun p => p.1 = text) with
  | none => simp [hf]
  | some a =>
    have hmem := List.mem_of_find?_eq_some hf
    simp only [hf, Option.map_some', Option.getD_some]
    simp only [KEYWORDS_LIST, List.mem_cons, List.not_mem_nil, or_false] at hmem
    rcases hmem with h | h | h | h | h | h | h | h | h | h | h | h | h | h | h | h <;>
      subst h <;> decide

theorem lt_length_of_getD {l : List Char} {i : Nat} {c : Char}
    (h : l.getD i '\x00' = c) (hc : c ≠ '\x00') : i < l.length := by
  by_contra hle
  push_neg at hle
  rw [List.getD_eq_getElem?_getD, List.getElem?_eq_none hle] at h
  simp at h
  exact hc h.symm

theorem take_append_len (l1 l2 : List Char) (n : Nat) :
    (l1 ++ l2).take (l1.length + n) = l1 ++ l2.take n := by
  rw [take_add, List.take_left, List.drop_left]

theorem take_one_drop {l : List Char} {i : Nat} (h : i < l.length) :
    (l.drop i).take 1 = [l[i]] := by
  rw [List.drop_eq_getElem_cons h]
  rfl

theorem countNL_eq_zero {m : List Char} (h : ∀ c ∈ m, ¬ c = '\n') :
    countNL m = 0 := by
  simp only [countNL, List.countP_eq_zero]
  intro a ha
  simp [h a ha]

theorem countNL_takeWhile_zero {p : Char → Bool} (hp : p '\n' = false)
    (m : List Char) : countNL (m.takeWhile p) = 0 :=
  countNL_eq_zero fun c hc => by
    have := List.mem_takeWhile_imp hc
    exact ne_of_pred this hp

theorem dropWhile_notQuote_cons {m : List Char} (hm : '"' ∈ m) :
    ∃ r, m.dropWhile notQuote = '"' :: r := by
  have hne : m.dropWhile notQuote ≠ [] := by
    intro h0
    have hself : m.takeWhile notQuote = m := by
      have happ := List.takeWhile_append_dropWhile notQuote m
      rw [h0, List.append_nil] at happ
      exact happ
    have := List.takeWhile_eq_self_iff.mp hself _ hm
    simp [notQuote] at this
  refine ⟨(m.dropWhile notQuote).tail, ?_⟩
  have hcons := List.head_cons_tail (m.dropWhile notQuote) hne
  have hh := List.head_dropWhile_not notQuote m hne
  simp only [notQuote] at hh
  rw [← hcons]
  congr 1
  simpa using hh

/-! ## Dispatch: which branch of `__scanToken` fires for which first
character -/

theorem advance_fst (s : ScannerState) : (advance s).1 = peek s :=
  (peek_eq_getD s).symm

theorem matchExpected_cases (s : ScannerState) (x : Char) :
    matchExpected s x = (false, s) ∨
    (matchExpected s x = (true, { s with current := s.current + 1 }) ∧
      s.current < s.source.length ∧ s.source.getD s.current '\x00' = x) := by
  unfold matchExpected
  split_ifs with h1 h2
  · exact Or.inl rfl
  · exact Or.inl rfl
  · refine Or.inr ⟨rfl, ?_, not_ne_iff.mp h2⟩
    rw [isAtEnd_iff] at h1
    omega

theorem scanToken_punct (s0 : ScannerState) (c : Char) (tt : TokenType)
    (hmem : (c, tt) ∈ [('(', TokenType.LEFT_PAREN), (')', TokenType.RIGHT_PAREN),
      ('\x7b', TokenType.LEFT_BRACE), ('\x7d', TokenType.RIGHT_BRACE),
      (',', TokenType.COMMA), ('.', TokenType.DOT), ('-', TokenType.MINUS),
      ('+', TokenType.PLUS), (';', TokenType.SEMICOLON), ('*', TokenType.STAR)])
    (h : peek s0 = c) :
    scanToken s0 =
      .ok (addToken { s0 with current := s0.current + 1 } tt Literal.none) := by
  unfold scanToken
  rw [advance_fst, h]
  fin_cases hmem <;> rfl

theorem scanToken_twoChar (s0 : ScannerState) (c : Char) (k1 k2 : TokenType)
    (hmem : (c, k1, k2) ∈ [('!', TokenType.BANG_EQUAL, TokenType.BANG),
      ('=', TokenType.EQUAL_EQUAL, TokenType.EQUAL),
      ('<', TokenType.LESS_EQUAL, TokenType.LESS),
      ('>', TokenType.GREATER_EQUAL, TokenType.GREATER)])
    (h : peek s0 = c) :
    scanToken s0 =
      .ok (addToken (matchExpected { s0 with current := s0.current + 1 } '=').2
        (if (matchExpected { s0 with current := s0.current + 1 } '=').1
          then k1 else k2) Literal.none) := by
  unfold scanToken
  rw [advance_fst, h]
  simp only [List.mem_cons, List.not_mem_nil, or_false, Prod.mk.injEq] at hmem
  rcases hmem with ⟨rfl, rfl, rfl⟩ | ⟨rfl, rfl, rfl⟩ | ⟨rfl, rfl, rfl⟩ |
    ⟨rfl, rfl, rfl⟩ <;> rfl

theorem scanToken_slash (s0 : ScannerState) (h : peek s0 = '/') :
    scanToken s0 =
      if (matchExpected { s0 with current := s0.current + 1 } '/').1 then
        .ok (commentLoopF
          (remaining (matchExpected { s0 with current := s0.current + 1 } '/').2)
          (matchExpected { s0 with current := s0.current + 1 } '/').2)
      else
        .ok (addToken (matchExpected { s0 with current := s0.current + 1 } '/').2
          TokenType.SLASH Literal.none) := by
  unfold scanToken
  rw [advance_fst, h]
  rfl

theorem scanToken_ws (s0 : ScannerState) (c : Char)
    (hmem : c ∈ [' ', '\r', '\t']) (h : peek s0 = c) :
    scanToken s0 = .ok { s0 with current := s0.current + 1 } := by
  unfold scanToken
  rw [advance_fst, h]
  simp only [List.mem_cons, List.not_mem_nil, or_false] at hmem
  rcases hmem with rfl | rfl | rfl <;> rfl

theorem scanToken_newline (s0 : ScannerState) (h : peek s0 = '\n') :
    scanToken s0 =
      .ok { s0 with current := s0.current + 1, line := s0.line + 1 } := by
  unfold scanToken
  rw [advance_fst, h]
  rfl

theorem scanToken_quote (s0 : ScannerState) (h : peek s0 = '"') :
    scanToken s0 = scanString { s0 with current := s0.current + 1 } := by
  unfold scanToken
  rw [advance_fst, h]
  rfl

theorem scanToken_digit (s0 : ScannerState)
    (h : pyIsDigit (peek s0) = true) :
    scanToken s0 = .ok (scanNumber { s0 with current := s0.current + 1 }) := by
  unfold scanToken
  rw [advance_fst]
  rcases digit_cases h with hc | hc | hc | hc | hc | hc | hc | hc | hc | hc <;>
    rw [hc] <;> rfl

theorem ne_of_pred_false {p : Char → Bool} {c x : Char} (hc : p c = false)
    (hx : p x = true) : ¬ c = x := by
  intro he
  rw [he, hx] at hc
  cases hc

theorem scanToken_alpha (s0 : ScannerState)
    (h : pyIsAlpha (peek s0) = true ∨ peek s0 = '_') :
    scanToken s0 =
      .ok (scanIdentifier { s0 with current := s0.current + 1 }) := by
  rcases h with ha | hu
  case inr =>
    unfold scanToken
    rw [advance_fst, hu]
    rfl
  case inl =>
    simp only [scanToken, advance_fst]
    rw [if_neg (ne_of_pred ha (by decide)), if_neg (ne_of_pred ha (by decide)),
      if_neg (ne_of_pred ha (by decide)), if_neg (ne_of_pred ha (by decide)),
      if_neg (ne_of_pred ha (by decide)), if_neg (ne_of_pred ha (by decide)),
      if_neg (ne_of_pred ha (by decide)), if_neg (ne_of_pred ha (by decide)),
      if_neg (ne_of_pred ha (by decide)), if_neg (ne_of_pred ha (by decide)),
      if_neg (ne_of_pred ha (by decide)), if_neg (ne_of_pred ha (by decide)),
      if_neg (ne_of_pred ha (by decide)), if_neg (ne_of_pred ha (by decide)),
      if_neg (ne_of_pred ha (by decide))]
    rw [if_neg (by
      push_neg
      exact ⟨ne_of_pred ha (by decide), ne_of_pred ha (by decide),
        ne_of_pred ha (by decide)⟩)]
    rw [if_neg (ne_of_pred ha (by decide)), if_neg (ne_of_pred ha (by decide))]
    rw [if_neg (by
      push_neg
      exact ⟨ne_of_pred ha (by decide), ne_of_pred ha (by decide),
        ne_of_pred ha (by decide), ne_of_pred ha (by decide),
        ne_of_pred ha (by decide), ne_of_pred ha (by decide),
        ne_of_pred ha (by decide), ne_of_pred ha (by decide),
        ne_of_pred ha (by decide), ne_of_pred ha (by decide)⟩)]
    rw [if_pos (Or.inl ha)]
    rfl

theorem scanToken_errorChar (s0 : ScannerState)
    (h : startsToken (peek s0) = false) :
    scanToken s0 =
      .error { line := s0.line, message := unexpectedMsg (peek s0) } := by
  have halpha : ¬ pyIsAlpha (peek s0) = true := by
    intro ha
    have hs : startsToken (peek s0) = true := by simp [startsToken, ha]
    rw [hs] at h
    cases h
  simp only [scanToken, advance_fst]
  rw [if_neg (ne_of_pred_false h (by decide)),
    if_neg (ne_of_pred_false h (by decide)),
    if_neg (ne_of_pred_false h (by decide)),
    if_neg (ne_of_pred_false h (by decide)),
    if_neg (ne_of_pred_false h (by decide)),
    if_neg (ne_of_pred_false h (by decide)),
    if_neg (ne_of_pred_false h (by decide)),
    if_neg (ne_of_pred_false h (by decide)),
    if_neg (ne_of_pred_false h (by decide)),
    if_neg (ne_of_pred_false h (by decide)),
    if_neg (ne_of_pred_false h (by decide)),
    if_neg (ne_of_pred_false h (by decide)),
    if_neg (ne_of_pred_false h (by decide)),
    if_neg (ne_of_pred_false h (by decide)),
    if_neg (ne_of_pred_false h (by decide))]
  rw [if_neg (by
    push_neg
    exact ⟨ne_of_pred_false h (by decide), ne_of_pred_false h (by decide),
      ne_of_pred_false h (by decide)⟩)]
  rw [if_neg (ne_of_pred_false h (by decide)),
    if_neg (ne_of_pred_false h (by decide))]
  rw [if_neg (by
    push_neg
    exact ⟨ne_of_pred_false h (by decide), ne_of_pred_false h (by decide),
      ne_of_pred_false h (by decide), ne_of_pred_false h (by decide),
      ne_of_pred_false h (by decide), ne_of_pred_false h (by decide),
      ne_of_pred_false h (by decide), ne_of_pred_false h (by decide),
      ne_of_pred_false h (by decide), ne_of_pred_false h (by decide)⟩)]
  rw [if_neg (by
    push_neg
    exact ⟨halpha, ne_of_pred_false h (by decide)⟩)]
  rfl

/-! ## The one-token step lemma -/

theorem stepConcl_build {s0 X : ScannerState}
    (hline : s0.line = 1 + countNL (s0.source.take s0.current))
    (h1 : X.source = s0.source) (h2 : X.start = s0.start)
    (h3 : s0.current < X.current) (h4 : X.current ≤ s0.source.length)
    (h6 : s0.line ≤ X.line)
    (h5 : countNL (s0.source.take X.current) + s0.line =
      countNL (s0.source.take s0.current) + X.line)
    (h7 : X.tokens = s0.tokens ∨
      ∃ t, X.tokens = s0.tokens ++ [t] ∧ t.type ≠ TokenType.EOF ∧
        ∃ st, st ≤ X.current ∧ t.lexeme = pySlice s0.source st X.current ∧
          t.line = X.line) :
    StepConcl s0 X := by
  refine ⟨h1, h2, h3, h4, h6, ?_, ?_⟩
  · rw [h1]
    omega
  · rcases h7 with h | ⟨t, ht, hNE, st, hstt, hlex, htl⟩
    · exact ⟨[], by simp [h], by simp⟩
    · refine ⟨[t], by simp [ht], ?_⟩
      intro u hu
      simp only [List.mem_singleton] at hu
      subst hu
      exact ⟨hNE, st, X.current, hstt, h4, hlex, by omega⟩

theorem countNL_take_succ_of_ne {l : List Char} {i : Nat}
    (hi : i < l.length) (hne : ¬ l[i] = '\n') :
    countNL (l.take (i + 1)) = countNL (l.take i) := by
  rw [countNL_take_add l i 1, take_one_drop hi]
  simp [countNL, hne]

theorem countNL_take_takeWhile_zero {p : Char → Bool} (hp : p '\n' = false)
    (l : List Char) (i : Nat) :
    countNL ((l.drop i).take ((l.drop i).takeWhile p).length) = 0 := by
  rw [take_length_takeWhile]
  exact countNL_takeWhile_zero hp _

theorem takeWhile_length_le (p : Char → Bool) :
    ∀ m : List Char, (m.takeWhile p).length ≤ m.length := by
  intro m
  induction m with
  | nil => simp
  | cons a l ih =>
    by_cases h : p a <;> simp [List.takeWhile_cons, h]
    omega

theorem stepConcl_ws (s0 : ScannerState)
    (hcur : s0.current < s0.source.length)
    (hline : s0.line = 1 + countNL (s0.source.take s0.current))
    (hnnl : ¬ s0.source[s0.current] = '\n') :
    StepConcl s0 { s0 with current := s0.current + 1 } := by
  refine stepConcl_build hline rfl rfl
    (show s0.current < s0.current + 1 by omega)
    (show s0.current + 1 ≤ s0.source.length by omega)
    (Nat.le_refl s0.line) ?_ (Or.inl rfl)
  show countNL (s0.source.take (s0.current + 1)) + s0.line =
    countNL (s0.source.take s0.current) + s0.line
  rw [countNL_take_succ_of_ne hcur hnnl]

theorem stepConcl_nl (s0 : ScannerState)
    (hcur : s0.current < s0.source.length)
    (hline : s0.line = 1 + countNL (s0.source.take s0.current))
    (hnl : s0.source[s0.current] = '\n') :
    StepConcl s0 { s0 with current := s0.current + 1, line := s0.line + 1 } := by
  refine stepConcl_build hline rfl rfl
    (show s0.current < s0.current + 1 by omega)
    (show s0.current + 1 ≤ s0.source.length by omega)
    (show s0.line ≤ s0.line + 1 by omega) ?_ (Or.inl rfl)
  show countNL (s0.source.take (s0.current + 1)) + s0.line =
    countNL (s0.source.take s0.current) + (s0.line + 1)
  rw [countNL_take_add s0.source s0.current 1, take_one_drop hcur, hnl]
  have h1 : countNL ['\n'] = 1 := by decide
  omega

theorem take_len_append_cons (P r : List Char) (x : Char) :
    (P ++ x :: r).take (P.length + 1) = P ++ [x] := by
  rw [take_append_len]
  rfl

theorem stepConcl_addToken_one (s0 : ScannerState) (tt : TokenType)
    (lit : Literal)
    (hcur : s0.current < s0.source.length)
    (hst : s0.start = s0.current)
    (hline : s0.line = 1 + countNL (s0.source.take s0.current))
    (hNE : tt ≠ TokenType.EOF)
    (hnnl : ¬ s0.source[s0.current] = '\n') :
    StepConcl s0 (addToken { s0 with current := s0.current + 1 } tt lit) := by
  refine stepConcl_build hline ?_ ?_ ?_ ?_ ?_ ?_ ?_
  · simp [addToken]
  · simp [addToken]
  · simp only [addToken]
    omega
  · simp only [addToken]
    omega
  · simp [addToken]
  · simp only [addToken]
    rw [countNL_take_succ_of_ne hcur hnnl]
  · right
    refine ⟨⟨tt, pySlice s0.source s0.start (s0.current + 1), lit, s0.line⟩,
      ?_, hNE, s0.start, ?_, ?_, ?_⟩
    · simp [addToken]
    · simp only [addToken]
      omega
    · simp [addToken]
    · simp [addToken]

theorem stepConcl_addToken_two (s0 : ScannerState) (tt : TokenType)
    (lit : Literal)
    (hcur : s0.current + 1 < s0.source.length)
    (hst : s0.start = s0.current)
    (hline : s0.line = 1 + countNL (s0.source.take s0.current))
    (hNE : tt ≠ TokenType.EOF)
    (hn1 : ¬ s0.source[s0.current] = '\n')
    (hn2 : ¬ s0.source[s0.current + 1] = '\n') :
    StepConcl s0 (addToken { s0 with current := s0.current + 1 + 1 } tt lit) := by
  refine stepConcl_build hline ?_ ?_ ?_ ?_ ?_ ?_ ?_
  · simp [addToken]
  · simp [addToken]
  · simp only [addToken]
    omega
  · simp only [addToken]
    omega
  · simp [addToken]
  · simp only [addToken]
    rw [countNL_take_succ_of_ne (by omega) hn2, countNL_take_succ_of_ne (by omega) hn1]
  · right
    refine ⟨⟨tt, pySlice s0.source s0.start (s0.current + 1 + 1), lit, s0.line⟩,
      ?_, hNE, s0.start, ?_, ?_, ?_⟩
    · simp [addToken]
    · simp only [addToken]
      omega
    · simp [addToken]
    · simp [addToken]

theorem scanToken_step (s0 s1 : ScannerState)
    (hcur : s0.current < s0.source.length)
    (hst : s0.start = s0.current)
    (hline : s0.line = 1 + countNL (s0.source.take s0.current))
    (hok : scanToken s0 = .ok s1) :
    StepConcl s0 s1 := by
  have hpeek : peek s0 = s0.source[s0.current] := peek_eq_getElem hcur
  by_cases h01 : peek s0 = '('
  · rw [scanToken_punct s0 '(' TokenType.LEFT_PAREN (by decide) h01] at hok
    injection hok with h
    subst h
    exact stepConcl_addToken_one s0 _ _ hcur hst hline (by decide)
      (by rw [← hpeek, h01]; decide)
  by_cases h02 : peek s0 = ')'
  · rw [scanToken_punct s0 ')' TokenType.RIGHT_PAREN (by decide) h02] at hok
    injection hok with h
    subst h
    exact stepConcl_addToken_one s0 _ _ hcur hst hline (by decide)
      (by rw [← hpeek, h02]; decide)
  by_cases h03 : peek s0 = '\x7b'
  · rw [scanToken_punct s0 '\x7b' TokenType.LEFT_BRACE (by decide) h03] at hok
    injection hok with h
    subst h
    exact stepConcl_addToken_one s0 _ _ hcur hst hline (by decide)
      (by rw [← hpeek, h03]; decide)
  by_cases h04 : peek s0 = '\x7d'
  · rw [scanToken_punct s0 '\x7d' TokenType.RIGHT_BRACE (by decide) h04] at hok
    injection hok with h
    subst h
    exact stepConcl_addToken_one s0 _ _ hcur hst hline (by decide)
      (by rw [← hpeek, h04]; decide)
  by_cases h05 : peek s0 = ','
  · rw [scanToken_punct s0 ',' TokenType.COMMA (by decide) h05] at hok
    injection hok with h
    subst h
    exact stepConcl_addToken_one s0 _ _ hcur hst hline (by decide)
      (by rw [← hpeek, h05]; decide)
  by_cases h06 : peek s0 = '.'
  · rw [scanToken_punct s0 '.' TokenType.DOT (by decide) h06] at hok
    injection hok with h
    subst h
    exact stepConcl_addToken_one s0 _ _ hcur hst hline (by decide)
      (by rw [← hpeek, h06]; decide)
  by_cases h07 : peek s0 = '-'
  · rw [scanToken_punct s0 '-' TokenType.MINUS (by decide) h07] at hok
    injection hok with h
    subst h
    exact stepConcl_addToken_one s0 _ _ hcur hst hline (by decide)
      (by rw [← hpeek, h07]; decide)
  by_cases h08 : peek s0 = '+'
  · rw [scanToken_punct s0 '+' TokenType.PLUS (by decide) h08] at hok
    injection hok with h
    subst h
    exact stepConcl_addToken_one s0 _ _ hcur hst hline (by decide)
      (by rw [← hpeek, h08]; decide)
  by_cases h09 : peek s0 = ';'
  · rw [scanToken_punct s0 ';' TokenType.SEMICOLON (by decide) h09] at hok
    injection hok with h
    subst h
    exact stepConcl_addToken_one s0 _ _ hcur hst hline (by decide)
      (by rw [← hpeek, h09]; decide)
  by_cases h10 : peek s0 = '*'
  · rw [scanToken_punct s0 '*' TokenType.STAR (by decide) h10] at hok
    injection hok with h
    subst h
    exact stepConcl_addToken_one s0 _ _ hcur hst hline (by decide)
      (by rw [← hpeek, h10]; decide)
  by_cases h11 : peek s0 = '!'
  · rw [scanToken_twoChar s0 '!' TokenType.BANG_EQUAL TokenType.BANG
      (by decide) h11] at hok
    rcases matchExpected_cases { s0 with current := s0.current + 1 } '=' with
      hm | ⟨hm, hlt2, hch2⟩
    · rw [hm] at hok
      injection hok with h
      subst h
      exact stepConcl_addToken_one s0 TokenType.BANG Literal.none hcur hst hline
        (by decide) (by rw [← hpeek, h11]; decide)
    · rw [hm] at hok
      injection hok with h
      subst h
      have hlt2' : s0.current + 1 < s0.source.length := hlt2
      have hcc : s0.source[s0.current + 1] = '=' := by
        have h2 : s0.source.getD (s0.current + 1) '\x00' = '=' := hch2
        rw [List.getD_eq_getElem?_getD, List.getElem?_eq_getElem hlt2'] at h2
        simpa using h2
      exact stepConcl_addToken_two s0 TokenType.BANG_EQUAL Literal.none hlt2' hst hline
        (by decide) (by rw [← hpeek, h11]; decide) (by rw [hcc]; decide)
  by_cases h12 : peek s0 = '='
  · rw [scanToken_twoChar s0 '=' TokenType.EQUAL_EQUAL TokenType.EQUAL
      (by decide) h12] at hok
    rcases matchExpected_cases { s0 with current := s0.current + 1 } '=' with
      hm | ⟨hm, hlt2, hch2⟩
    · rw [hm] at hok
      injection hok with h
      subst h
      exact stepConcl_addToken_one s0 TokenType.EQUAL Literal.none hcur hst hline
        (by decide) (by rw [← hpeek, h12]; decide)
    · rw [hm] at hok
      injection hok with h
      subst h
      have hlt2' : s0.current + 1 < s0.source.length := hlt2
      have hcc : s0.source[s0.current + 1] = '=' := by
        have h2 : s0.source.getD (s0.current + 1) '\x00' = '=' := hch2
        rw [List.getD_eq_getElem?_getD, List.getElem?_eq_getElem hlt2'] at h2
        simpa using h2
      exact stepConcl_addToken_two s0 TokenType.EQUAL_EQUAL Literal.none hlt2' hst hline
        (by decide) (by rw [← hpeek, h12]; decide) (by rw [hcc]; decide)
  by_cases h13 : peek s0 = '<'
  · rw [scanToken_twoChar s0 '<' TokenType.LESS_EQUAL TokenType.LESS
      (by decide) h13] at hok
    rcases matchExpected_cases { s0 with current := s0.current + 1 } '=' with
      hm | ⟨hm, hlt2, hch2⟩
    · rw [hm] at hok
      injection hok with h
      subst h
      exact stepConcl_addToken_one s0 TokenType.LESS Literal.none hcur hst hline
        (by decide) (by rw [← hpeek, h13]; decide)
    · rw [hm] at hok
      injection hok with h
      subst h
      have hlt2' : s0.current + 1 < s0.source.length := hlt2
      have hcc : s0.source[s0.current + 1] = '=' := by
        have h2 : s0.source.getD (s0.current + 1) '\x00' = '=' := hch2
        rw [List.getD_eq_getElem?_getD, List.getElem?_eq_getElem hlt2'] at h2
        simpa using h2
      exact stepConcl_addToken_two s0 TokenType.LESS_EQUAL Literal.none hlt2' hst hline
        (by decide) (by rw [← hpeek, h13]; decide) (by rw [hcc]; decide)
  by_cases h14 : peek s0 = '>'
  · rw [scanToken_twoChar s0 '>' TokenType.GREATER_EQUAL TokenType.GREATER
      (by decide) h14] at hok
    rcases matchExpected_cases { s0 with current := s0.current + 1 } '=' with
      hm | ⟨hm, hlt2, hch2⟩
    · rw [hm] at hok
      injection hok with h
      subst h
      exact stepConcl_addToken_one s0 TokenType.GREATER Literal.none hcur hst hline
        (by decide) (by rw [← hpeek, h14]; decide)
    · rw [hm] at hok
      injection hok with h
      subst h
      have hlt2' : s0.current + 1 < s0.source.length := hlt2
      have hcc : s0.source[s0.current + 1] = '=' := by
        have h2 : s0.source.getD (s0.current + 1) '\x00' = '=' := hch2
        rw [List.getD_eq_getElem?_getD, List.getElem?_eq_getElem hlt2'] at h2
        simpa using h2
      exact stepConcl_addToken_two s0 TokenType.GREATER_EQUAL Literal.none hlt2' hst hline
        (by decide) (by rw [← hpeek, h14]; decide) (by rw [hcc]; decide)
  by_cases h15 : peek s0 = '/'
  · rw [scanToken_slash s0 h15] at hok
    rcases matchExpected_cases { s0 with current := s0.current + 1 } '/' with
      hm | ⟨hm, hlt2, hch2⟩
    · rw [hm] at hok
      simp only [reduceIte] at hok
      injection hok with h
      subst h
      exact stepConcl_addToken_one s0 TokenType.SLASH Literal.none hcur hst hline
        (by decide) (by rw [← hpeek, h15]; decide)
    · rw [hm] at hok
      simp only [reduceIte, remaining] at hok
      have hcomm : commentLoopF (s0.source.length - (s0.current + 1 + 1))
          { s0 with current := s0.current + 1 + 1 } =
          { s0 with current := s0.current + 1 + 1 +
            ((s0.source.drop (s0.current + 1 + 1)).takeWhile notNL).length } := by
        have hc := commentLoopF_spec (s0.source.length - (s0.current + 1 + 1))
          { s0 with current := s0.current + 1 + 1 } (by simp)
        simpa using hc
      rw [hcomm] at hok
      injection hok with h
      subst h
      have hlt2' : s0.current + 1 < s0.source.length := hlt2
      have hcc : s0.source[s0.current + 1] = '/' := by
        have h2 : s0.source.getD (s0.current + 1) '\x00' = '/' := hch2
        rw [List.getD_eq_getElem?_getD, List.getElem?_eq_getElem hlt2'] at h2
        simpa using h2
      have hdl := takeWhile_length_le notNL (s0.source.drop (s0.current + 1 + 1))
      rw [List.length_drop] at hdl
      refine stepConcl_build hline rfl rfl
        (show s0.current < s0.current + 1 + 1 +
          ((s0.source.drop (s0.current + 1 + 1)).takeWhile notNL).length by omega)
        (show s0.current + 1 + 1 +
          ((s0.source.drop (s0.current + 1 + 1)).takeWhile notNL).length ≤
          s0.source.length by omega)
        (Nat.le_refl s0.line) ?_ (Or.inl rfl)
      show countNL (s0.source.take (s0.current + 1 + 1 +
          ((s0.source.drop (s0.current + 1 + 1)).takeWhile notNL).length)) + s0.line =
        countNL (s0.source.take s0.current) + s0.line
      rw [countNL_take_add s0.source (s0.current + 1 + 1),
        countNL_take_takeWhile_zero (by decide) s0.source (s0.current + 1 + 1),
        countNL_take_succ_of_ne (by omega) (by rw [hcc]; decide),
        countNL_take_succ_of_ne hcur (by rw [← hpeek, h15]; decide)]
      omega
  by_cases h16 : peek s0 = ' '
  · rw [scanToken_ws s0 ' ' (by decide) h16] at hok
    injection hok with h
    subst h
    exact stepConcl_ws s0 hcur hline (by rw [← hpeek, h16]; decide)
  by_cases h17 : peek s0 = '\x0d'
  · rw [scanToken_ws s0 '\x0d' (by decide) h17] at hok
    injection hok with h
    subst h
    exact stepConcl_ws s0 hcur hline (by rw [← hpeek, h17]; decide)
  by_cases h18 : peek s0 = '\t'
  · rw [scanToken_ws s0 '\t' (by decide) h18] at hok
    injection hok with h
    subst h
    exact stepConcl_ws s0 hcur hline (by rw [← hpeek, h18]; decide)
  by_cases h19 : peek s0 = '\n'
  · rw [scanToken_newline s0 h19] at hok
    injection hok with h
    subst h
    exact stepConcl_nl s0 hcur hline (by rw [← hpeek, h19])
  by_cases h20 : peek s0 = '"'
  · rw [scanToken_quote s0 h20] at hok
    by_cases hq : '"' ∈ s0.source.drop (s0.current + 1)
    · rw [scanString_ok _ hq] at hok
      injection hok with h
      subst h
      obtain ⟨r, hr⟩ := dropWhile_notQuote_cons hq
      have hsplit : (s0.source.drop (s0.current + 1)).takeWhile notQuote ++
          '"' :: r = s0.source.drop (s0.current + 1) := by
        rw [← hr]
        exact List.takeWhile_append_dropWhile notQuote _
      have hlen : ((s0.source.drop (s0.current + 1)).takeWhile notQuote).length + 1 +
          r.length = s0.source.length - (s0.current + 1) := by
        have hLL := congrArg List.length hsplit
        simp at hLL
        omega
      have hql := takeWhile_lt_of_mem hq (show notQuote '"' = false by decide)
      rw [List.length_drop] at hql
      refine stepConcl_build hline rfl rfl
        (show s0.current < s0.current + 1 +
          ((s0.source.drop (s0.current + 1)).takeWhile notQuote).length + 1 by omega)
        (show s0.current + 1 +
          ((s0.source.drop (s0.current + 1)).takeWhile notQuote).length + 1 ≤
          s0.source.length by omega)
        (show s0.line ≤ s0.line +
          countNL ((s0.source.drop (s0.current + 1)).takeWhile notQuote) by omega)
        ?_ ?_
      · show countNL (s0.source.take (s0.current + 1 +
            ((s0.source.drop (s0.current + 1)).takeWhile notQuote).length + 1)) +
            s0.line =
          countNL (s0.source.take s0.current) + (s0.line +
            countNL ((s0.source.drop (s0.current + 1)).takeWhile notQuote))
        have hdrop0 : s0.source.drop s0.current =
            s0.source[s0.current] :: s0.source.drop (s0.current + 1) :=
          List.drop_eq_getElem_cons hcur
        generalize hP : (s0.source.drop (s0.current + 1)).takeWhile notQuote = P
        rw [hP] at hsplit
        have harr : s0.current + 1 + P.length + 1 =
            s0.current + (1 + (P.length + 1)) := by omega
        rw [harr, countNL_take_add s0.source s0.current, hdrop0, ← hpeek, h20,
          show 1 + (P.length + 1) = (P.length + 1) + 1 from by omega,
          List.take_succ_cons, ← hsplit, take_len_append_cons]
        simp [countNL, List.countP_cons]
        omega
      · right
        refine ⟨⟨TokenType.STRING,
          pySlice s0.source s0.start (s0.current + 1 +
            ((s0.source.drop (s0.current + 1)).takeWhile notQuote).length + 1),
          Literal.str (pySlice s0.source (s0.start + 1) (s0.current + 1 +
            ((s0.source.drop (s0.current + 1)).takeWhile notQuote).length)),
          s0.line + countNL ((s0.source.drop (s0.current + 1)).takeWhile notQuote)⟩,
          rfl, by simp, s0.start, ?_, rfl, rfl⟩
        show s0.start ≤ s0.current + 1 +
          ((s0.source.drop (s0.current + 1)).takeWhile notQuote).length + 1
        omega
    · exfalso
      rw [scanString_err _ (fun c hc => by
        intro he
        exact hq (he ▸ hc))] at hok
      cases hok
  by_cases h21 : pyIsDigit (peek s0) = true
  · rw [scanToken_digit s0 h21] at hok
    have hd0 : ¬ s0.source[s0.current] = '\n' := by
      rw [← hpeek]
      exact ne_of_pred h21 (by decide)
    have hdl := takeWhile_length_le pyIsDigit (s0.source.drop (s0.current + 1))
    rw [List.length_drop] at hdl
    by_cases hdot : (s0.source.getD (s0.current + 1 +
        ((s0.source.drop (s0.current + 1)).takeWhile pyIsDigit).length) '\x00' = '.' ∧
      pyIsDigit (s0.source.getD (s0.current + 1 +
        ((s0.source.drop (s0.current + 1)).takeWhile pyIsDigit).length + 1) '\x00') = true)
    · rw [scanNumber_dot _ hdot] at hok
      injection hok with h
      subst h
      have hjlt : s0.current + 1 +
          ((s0.source.drop (s0.current + 1)).takeWhile pyIsDigit).length <
          s0.source.length :=
        lt_length_of_getD hdot.1 (by decide)
      have hjc : s0.source[s0.current + 1 +
          ((s0.source.drop (s0.current + 1)).takeWhile pyIsDigit).length] = '.' := by
        have h2 := hdot.1
        rw [List.getD_eq_getElem?_getD, List.getElem?_eq_getElem hjlt] at h2
        simpa using h2
      have hfl := takeWhile_length_le pyIsDigit (s0.source.drop (s0.current + 1 +
        ((s0.source.drop (s0.current + 1)).takeWhile pyIsDigit).length + 1))
      rw [List.length_drop] at hfl
      refine stepConcl_build hline rfl rfl
        (show s0.current < s0.current + 1 +
          ((s0.source.drop (s0.current + 1)).takeWhile pyIsDigit).length + 1 +
          ((s0.source.drop (s0.current + 1 +
            ((s0.source.drop (s0.current + 1)).takeWhile pyIsDigit).length +
            1)).takeWhile pyIsDigit).length by omega)
        (show s0.current + 1 +
          ((s0.source.drop (s0.current + 1)).takeWhile pyIsDigit).length + 1 +
          ((s0.source.drop (s0.current + 1 +
            ((s0.source.drop (s0.current + 1)).takeWhile pyIsDigit).length +
            1)).takeWhile pyIsDigit).length ≤ s0.source.length by omega)
        (Nat.le_refl s0.line) ?_ ?_
      · show countNL (s0.source.take (s0.current + 1 +
            ((s0.source.drop (s0.current + 1)).takeWhile pyIsDigit).length + 1 +
            ((s0.source.drop (s0.current + 1 +
              ((s0.source.drop (s0.current + 1)).takeWhile pyIsDigit).length +
              1)).takeWhile pyIsDigit).length)) + s0.line =
          countNL (s0.source.take s0.current) + s0.line
        rw [countNL_take_add s0.source (s0.current + 1 +
            ((s0.source.drop (s0.current + 1)).takeWhile pyIsDigit).length + 1),
          countNL_take_takeWhile_zero (by decide),
          countNL_take_succ_of_ne hjlt (by rw [hjc]; decide),
          countNL_take_add s0.source (s0.current + 1),
          countNL_take_takeWhile_zero (by decide),
          countNL_take_succ_of_ne hcur hd0]
        omega
      · right
        refine ⟨⟨TokenType.NUMBER,
          pySlice s0.source s0.start (s0.current + 1 +
            ((s0.source.drop (s0.current + 1)).takeWhile pyIsDigit).length + 1 +
            ((s0.source.drop (s0.current + 1 +
              ((s0.source.drop (s0.current + 1)).takeWhile pyIsDigit).length +
              1)).takeWhile pyIsDigit).length),
          Literal.num (pyFloat (pySlice s0.source s0.start (s0.current + 1 +
            ((s0.source.drop (s0.current + 1)).takeWhile pyIsDigit).length + 1 +
            ((s0.source.drop (s0.current + 1 +
              ((s0.source.drop (s0.current + 1)).takeWhile pyIsDigit).length +
              1)).takeWhile pyIsDigit).length))),
          s0.line⟩, rfl, by simp, s0.start, ?_, rfl, rfl⟩
        show s0.start ≤ s0.current + 1 +
          ((s0.source.drop (s0.current + 1)).takeWhile pyIsDigit).length + 1 +
          ((s0.source.drop (s0.current + 1 +
            ((s0.source.drop (s0.current + 1)).takeWhile pyIsDigit).length +
            1)).takeWhile pyIsDigit).length
        omega
    · rw [scanNumber_nodot _ hdot] at hok
      injection hok with h
      subst h
      refine stepConcl_build hline rfl rfl
        (show s0.current < s0.current + 1 +
          ((s0.source.drop (s0.current + 1)).takeWhile pyIsDigit).length by omega)
        (show s0.current + 1 +
          ((s0.source.drop (s0.current + 1)).takeWhile pyIsDigit).length ≤
          s0.source.length by omega)
        (Nat.le_refl s0.line) ?_ ?_
      · show countNL (s0.source.take (s0.current + 1 +
            ((s0.source.drop (s0.current + 1)).takeWhile pyIsDigit).length)) +
            s0.line =
          countNL (s0.source.take s0.current) + s0.line
        rw [countNL_take_add s0.source (s0.current + 1),
          countNL_take_takeWhile_zero (by decide),
          countNL_take_succ_of_ne hcur hd0]
        omega
      · right
        refine ⟨⟨TokenType.NUMBER,
          pySlice s0.source s0.start (s0.current + 1 +
            ((s0.source.drop (s0.current + 1)).takeWhile pyIsDigit).length),
          Literal.num (pyFloat (pySlice s0.source s0.start (s0.current + 1 +
            ((s0.source.drop (s0.current + 1)).takeWhile pyIsDigit).length))),
          s0.line⟩, rfl, by simp, s0.start, ?_, rfl, rfl⟩
        show s0.start ≤ s0.current + 1 +
          ((s0.source.drop (s0.current + 1)).takeWhile pyIsDigit).length
        omega
  by_cases h22 : (pyIsAlpha (peek s0) = true ∨ peek s0 = '_')
  · rw [scanToken_alpha s0 h22] at hok
    rw [scanIdentifier_spec _] at hok
    injection hok with h
    subst h
    have hid0 : ¬ s0.source[s0.current] = '\n' := by
      rw [← hpeek]
      rcases h22 with ha | ha
      · exact ne_of_pred ha (by decide)
      · rw [ha]; decide
    have hdl := takeWhile_length_le isIdentChar (s0.source.drop (s0.current + 1))
    rw [List.length_drop] at hdl
    refine stepConcl_build hline rfl rfl
      (show s0.current < s0.current + 1 +
        ((s0.source.drop (s0.current + 1)).takeWhile isIdentChar).length by omega)
      (show s0.current + 1 +
        ((s0.source.drop (s0.current + 1)).takeWhile isIdentChar).length ≤
        s0.source.length by omega)
      (Nat.le_refl s0.line) ?_ ?_
    · show countNL (s0.source.take (s0.current + 1 +
          ((s0.source.drop (s0.current + 1)).takeWhile isIdentChar).length)) +
          s0.line =
        countNL (s0.source.take s0.current) + s0.line
      rw [countNL_take_add s0.source (s0.current + 1),
        countNL_take_takeWhile_zero (by decide),
        countNL_take_succ_of_ne hcur hid0]
      omega
    · right
      refine ⟨⟨(KEYWORDS (pySlice s0.source s0.start (s0.current + 1 +
          ((s0.source.drop (s0.current + 1)).takeWhile isIdentChar).length))).getD
            TokenType.IDENTIFIER,
        pySlice s0.source s0.start (s0.current + 1 +
          ((s0.source.drop (s0.current + 1)).takeWhile isIdentChar).length),
        Literal.none, s0.line⟩,
        rfl, KEYWORDS_getD_ne_EOF _, s0.start, ?_, rfl, rfl⟩
      show s0.start ≤ s0.current + 1 +
        ((s0.source.drop (s0.current + 1)).takeWhile isIdentChar).length
      omega
  push_neg at h22
  have h21' : pyIsDigit (peek s0) = false := by simpa using h21
  have h22a : pyIsAlpha (peek s0) = false := by simpa using h22.1
  have hsf : startsToken (peek s0) = false := by
    simp [startsToken, h01, h02, h03, h04, h05, h06, h07, h08, h09, h10,
      h11, h12, h13, h14, h15, h16, h17, h18, h19, h20, h21', h22a, h22.2]
  rw [scanToken_errorChar s0 hsf] at hok
  cases hok

/-! ## The driver loop -/

theorem step_preserves (s s1 : ScannerState) (hInv : Inv s) (hstep : Step s s1) :
    Inv s1 ∧ s1.source = s.source ∧ s.current < s1.current ∧
    s.line ≤ s1.line ∧
    ∃ ts, s1.tokens = s.tokens ++ ts ∧ ∀ t ∈ ts, GoodTok s.source t := by
  obtain ⟨hne, hok⟩ := hstep
  have hcur : s.current < s.source.length := not_isAtEnd_iff.mp hne
  obtain ⟨h1, h2, h3, h4, h6, h5, ts, hts, hgood⟩ :=
    scanToken_step { s with start := s.current } s1 hcur rfl hInv.2.2 hok
  refine ⟨⟨?_, ?_, ?_⟩, h1, h3, h6, ts, hts, hgood⟩
  · rw [h2]
    exact Nat.le_of_lt h3
  · rw [← h1] at h4
    exact h4
  · exact h5

theorem scanLoopF_ok (fuel : Nat) :
    ∀ s sf : ScannerState, Inv s → s.source.length - s.current < fuel →
    scanLoopF fuel s = .ok sf →
    sf.source = s.source ∧ s.current ≤ sf.current ∧ Inv sf ∧
    isAtEnd sf = true ∧ s.line ≤ sf.line ∧
    ∃ ts, sf.tokens = s.tokens ++ ts ∧ ∀ t ∈ ts, GoodTok s.source t := by
  induction fuel with
  | zero =>
    intro s sf _ hfuel _
    omega
  | succ fuel ih =>
    intro s sf hInv hfuel hok
    rw [scanLoopF] at hok
    by_cases hend : isAtEnd s = true
    · rw [if_pos hend] at hok
      injection hok with h
      subst h
      exact ⟨rfl, Nat.le_refl _, hInv, hend, Nat.le_refl _, [], by simp, by simp⟩
    · rw [if_neg hend] at hok
      match hsc : scanToken { s with start := s.current } with
      | .error e =>
        rw [hsc] at hok
        cases hok
      | .ok s1 =>
        rw [hsc] at hok
        obtain ⟨hInv1, hsrc1, hlt1, hline1, ts1, hts1, hgood1⟩ :=
          step_preserves s s1 hInv ⟨hend, hsc⟩
        have hs1b : s1.current ≤ s.source.length := by
          have hb := hInv1.2.1
          rwa [hsrc1] at hb
        have hfuel1 : s1.source.length - s1.current < fuel := by
          rw [hsrc1]
          omega
        obtain ⟨hsf1, hle1, hInvf, hendf, hlinef, ts2, hts2, hgood2⟩ :=
          ih s1 sf hInv1 hfuel1 hok
        refine ⟨by rw [hsf1, hsrc1], by omega, hInvf, hendf, by omega,
          ts1 ++ ts2, by rw [hts2, hts1, List.append_assoc], ?_⟩
        intro t ht
        rw [List.mem_append] at ht
        rcases ht with ht | ht
        · exact hgood1 t ht
        · have := hgood2 t ht
          rwa [hsrc1] at this

theorem Inv_initState (code : List Char) : Inv (initState code) := by
  refine ⟨Nat.le_refl _, Nat.zero_le _, ?_⟩
  simp [initState, countNL]

/-- Characterization of a successful `scanTokens` run: the driver loop ends
in a state `sf` that has consumed the whole source, satisfies the
invariant, and has accumulated only well-formed non-EOF tokens; the result
is `sf.tokens` with the EOF token appended. -/
theorem scanTokens_ok (code : List Char) (toks : List Token)
    (h : scanTokens code = .ok toks) :
    ∃ sf : ScannerState, scanLoopF (code.length + 1) (initState code) = .ok sf ∧
      toks = sf.tokens ++
        [{ type := TokenType.EOF, lexeme := [], literal := Literal.none,
           line := sf.line }] ∧
      sf.source = code ∧ Inv sf ∧ sf.current = code.length ∧
      sf.line = 1 + countNL code ∧
      ∀ t ∈ sf.tokens, GoodTok code t := by
  unfold scanTokens scanTokensMethod at h
  have hfe : remaining (initState code) + 1 = code.length + 1 := by
    simp [remaining, initState]
  rw [hfe] at h
  match hsc : scanLoopF (code.length + 1) (initState code) with
  | .error e =>
    rw [hsc] at h
    cases h
  | .ok sf =>
    rw [hsc] at h
    injection h with h
    obtain ⟨hsrc0, _, hInv, hend, _, ts, hts0, hgood0⟩ :=
      scanLoopF_ok _ _ _ (Inv_initState code) (by simp [initState]) hsc
    have hsrc : sf.source = code := by simpa [initState] using hsrc0
    have hts : sf.tokens = ts := by simpa [initState] using hts0
    have hgood : ∀ t ∈ sf.tokens, GoodTok code t := by
      intro t ht
      rw [hts] at ht
      have hg := hgood0 t ht
      simpa [initState] using hg
    have hcur : sf.current = code.length := by
      rw [isAtEnd_iff, hsrc] at hend
      have hb := hInv.2.1
      rw [hsrc] at hb
      omega
    have hlinef : sf.line = 1 + countNL code := by
      have hl := hInv.2.2
      rw [hsrc, hcur, List.take_length] at hl
      exact hl
    exact ⟨sf, rfl, h.symm, hsrc, hInv, hcur, hlinef, hgood⟩

/-! ## Helper characterizations used by the claim theorems -/

theorem matchExpected_eq (s : ScannerState) (x : Char) (hx : ¬ x = '\x00') :
    matchExpected s x =
      if s.source.getD s.current '\x00' = x then
        ((true, { s with current := s.current + 1 }) : Bool × ScannerState)
      else (false, s) := by
  unfold matchExpected
  by_cases hc : s.source.getD s.current '\x00' = x
  · rw [if_pos hc]
    have hne : ¬ isAtEnd s = true := by
      intro hend
      rw [isAtEnd_iff] at hend
      rw [List.getD_eq_getElem?_getD, List.getElem?_eq_none hend] at hc
      simp at hc
      exact hx hc.symm
    rw [if_neg hne, if_neg (not_ne_iff.mpr hc)]
  · rw [if_neg hc]
    by_cases hend : isAtEnd s = true
    · rw [if_pos hend]
    · rw [if_neg hend, if_pos hc]

theorem dropWhile_eq_drop_tw (p : Char → Bool) (l : List Char) :
    l.dropWhile p = l.drop (l.takeWhile p).length := by
  have h := List.takeWhile_append_dropWhile p l
  calc l.dropWhile p
      = (l.takeWhile p ++ l.dropWhile p).drop (l.takeWhile p).length :=
        (List.drop_left _ _).symm
    _ = l.drop (l.takeWhile p).length := by rw [h]

theorem scanLoopF_error_source (fuel : Nat) :
    ∀ (s : ScannerState) (e : ScannerError), scanLoopF fuel s = .error e →
    ∃ s1, ¬ isAtEnd s1 = true ∧
      scanToken { s1 with start := s1.current } = .error e := by
  induction fuel with
  | zero =>
    intro s e h
    cases h
  | succ fuel ih =>
    intro s e h
    rw [scanLoopF] at h
    by_cases hend : isAtEnd s = true
    · rw [if_pos hend] at h
      cases h
    · rw [if_neg hend] at h
      match hsc : scanToken { s with start := s.current } with
      | .error e1 =>
        rw [hsc] at h
        injection h with h
        subst h
        exact ⟨s, hend, hsc⟩
      | .ok s1 =>
        rw [hsc] at h
        exact ih s1 e h

theorem scanToken_ok_of_startsToken (s : ScannerState)
    (hs : startsToken (peek s) = true) (hq : ¬ peek s = '"') :
    ∃ s1, scanToken s = .ok s1 := by
  have hs' : peek s = '(' ∨ peek s = ')' ∨ peek s = '\x7b' ∨ peek s = '\x7d' ∨
      peek s = ',' ∨ peek s = '.' ∨ peek s = '-' ∨ peek s = '+' ∨
      peek s = ';' ∨ peek s = '*' ∨ peek s = '!' ∨ peek s = '=' ∨
      peek s = '<' ∨ peek s = '>' ∨ peek s = '/' ∨ peek s = ' ' ∨
      peek s = '\x0d' ∨ peek s = '\t' ∨ peek s = '\n' ∨ peek s = '"' ∨
      pyIsDigit (peek s) = true ∨ pyIsAlpha (peek s) = true ∨
      peek s = '_' := by
    simpa [startsToken, Bool.or_eq_true, decide_eq_true_eq, or_assoc] using hs
  rcases hs' with h|h|h|h|h|h|h|h|h|h|h|h|h|h|h|h|h|h|h|h|h|h|h
  · exact ⟨_, scanToken_punct s '(' TokenType.LEFT_PAREN (by decide) h⟩
  · exact ⟨_, scanToken_punct s ')' TokenType.RIGHT_PAREN (by decide) h⟩
  · exact ⟨_, scanToken_punct s '\x7b' TokenType.LEFT_BRACE (by decide) h⟩
  · exact ⟨_, scanToken_punct s '\x7d' TokenType.RIGHT_BRACE (by decide) h⟩
  · exact ⟨_, scanToken_punct s ',' TokenType.COMMA (by decide) h⟩
  · exact ⟨_, scanToken_punct s '.' TokenType.DOT (by decide) h⟩
  · exact ⟨_, scanToken_punct s '-' TokenType.MINUS (by decide) h⟩
  · exact ⟨_, scanToken_punct s '+' TokenType.PLUS (by decide) h⟩
  · exact ⟨_, scanToken_punct s ';' TokenType.SEMICOLON (by decide) h⟩
  · exact ⟨_, scanToken_punct s '*' TokenType.STAR (by decide) h⟩
  · exact ⟨_, scanToken_twoChar s '!' TokenType.BANG_EQUAL TokenType.BANG
      (by decide) h⟩
  · exact ⟨_, scanToken_twoChar s '=' TokenType.EQUAL_EQUAL TokenType.EQUAL
      (by decide) h⟩
  · exact ⟨_, scanToken_twoChar s '<' TokenType.LESS_EQUAL TokenType.LESS
      (by decide) h⟩
  · exact ⟨_, scanToken_twoChar s '>' TokenType.GREATER_EQUAL TokenType.GREATER
      (by decide) h⟩
  · rw [scanToken_slash s h]
    by_cases hm : (matchExpected { s with current := s.current + 1 } '/').1 = true
    · rw [if_pos hm]
      exact ⟨_, rfl⟩
    · rw [if_neg hm]
      exact ⟨_, rfl⟩
  · exact ⟨_, scanToken_ws s ' ' (by decide) h⟩
  · exact ⟨_, scanToken_ws s '\x0d' (by decide) h⟩
  · exact ⟨_, scanToken_ws s '\t' (by decide) h⟩
  · exact ⟨_, scanToken_newline s h⟩
  · exact absurd h hq
  · exact ⟨_, scanToken_digit s h⟩
  · exact ⟨_, scanToken_alpha s (Or.inl h)⟩
  · exact ⟨_, scanToken_alpha s (Or.inr h)⟩

/-- What `__scanToken` does on a well-terminated string literal, phrased
from the start of the lexeme (`start = current`, the opening quote under
the cursor, a closing quote somewhere to the right): one STRING token is
appended whose lexeme is the full quoted text including both quotes,
whose literal is the text strictly between the quotes, and the line
counter grows by the number of newlines inside the literal. -/
theorem scanToken_string_spec (s : ScannerState) (hst : s.start = s.current)
    (hq : peek s = '"') (hterm : '"' ∈ s.source.drop (s.current + 1)) :
    scanToken s = .ok { s with
      current := s.current + 1 +
        ((s.source.drop (s.current + 1)).takeWhile notQuote).length + 1,
      line := s.line + countNL ((s.source.drop (s.current + 1)).takeWhile notQuote),
      tokens := s.tokens ++
        [{ type := TokenType.STRING,
           lexeme := '"' ::
             ((s.source.drop (s.current + 1)).takeWhile notQuote ++ ['"']),
           literal :=
             Literal.str ((s.source.drop (s.current + 1)).takeWhile notQuote),
           line := s.line +
             countNL ((s.source.drop (s.current + 1)).takeWhile notQuote) }] } := by
  have hcur : s.current < s.source.length := by
    refine lt_length_of_getD (c := '"') ?_ (by decide)
    rw [← peek_eq_getD]
    exact hq
  have hpeekE : s.source[s.current] = '"' := (peek_eq_getElem hcur).symm.trans hq
  obtain ⟨r, hr⟩ := dropWhile_notQuote_cons hterm
  have hsplit : (s.source.drop (s.current + 1)).takeWhile notQuote ++ '"' :: r =
      s.source.drop (s.current + 1) := by
    rw [← hr]
    exact List.takeWhile_append_dropWhile notQuote _
  have hlex : pySlice s.source s.start (s.current + 1 +
      ((s.source.drop (s.current + 1)).takeWhile notQuote).length + 1) =
      '"' :: ((s.source.drop (s.current + 1)).takeWhile notQuote ++ ['"']) := by
    rw [hst]
    generalize hP : (s.source.drop (s.current + 1)).takeWhile notQuote = P
    rw [hP] at hsplit
    rw [pySlice_eq_take_drop _ (by omega),
      show s.current + 1 + P.length + 1 - s.current = (P.length + 1) + 1 from by
        omega,
      List.drop_eq_getElem_cons hcur, hpeekE, List.take_succ_cons, ← hsplit,
      take_len_append_cons]
  have hlit : pySlice s.source (s.start + 1) (s.current + 1 +
      ((s.source.drop (s.current + 1)).takeWhile notQuote).length) =
      (s.source.drop (s.current + 1)).takeWhile notQuote := by
    rw [hst]
    exact pySlice_takeWhile s.source (s.current + 1) notQuote
  rw [scanToken_quote s hq, scanString_ok _ (by simpa using hterm)]
  simp [hlex, hlit]

/-- What `__scanToken` does on a number with no fractional part (the
character after the maximal digit run is not a dot, or the one after the
dot is not a digit), phrased from the start of the lexeme. -/
theorem scanToken_number_nodot_spec (s : ScannerState) (hst : s.start = s.current)
    (hd : pyIsDigit (peek s) = true)
    (hcond : ¬ (s.source.getD
        (s.current + ((s.source.drop s.current).takeWhile pyIsDigit).length)
        '\x00' = '.' ∧
      pyIsDigit (s.source.getD
        (s.current + ((s.source.drop s.current).takeWhile pyIsDigit).length + 1)
        '\x00') = true)) :
    scanToken s = .ok { s with
      current := s.current + ((s.source.drop s.current).takeWhile pyIsDigit).length,
      tokens := s.tokens ++
        [{ type := TokenType.NUMBER,
           lexeme := (s.source.drop s.current).takeWhile pyIsDigit,
           literal := Literal.num
             (pyFloat ((s.source.drop s.current).takeWhile pyIsDigit)),
           line := s.line }] } := by
  have hcur : s.current < s.source.length := by
    refine lt_length_of_getD (c := peek s) ?_ (ne_of_pred hd (by decide))
    rw [← peek_eq_getD]
  have hdE : pyIsDigit s.source[s.current] = true := by
    rw [← peek_eq_getElem hcur]
    exact hd
  have hds : (s.source.drop s.current).takeWhile pyIsDigit =
      s.source[s.current] :: (s.source.drop (s.current + 1)).takeWhile pyIsDigit := by
    rw [List.drop_eq_getElem_cons hcur, List.takeWhile_cons_of_pos hdE]
  have hlen : ((s.source.drop s.current).takeWhile pyIsDigit).length =
      ((s.source.drop (s.current + 1)).takeWhile pyIsDigit).length + 1 := by
    rw [hds]
    rfl
  have hlex : pySlice s.source s.start (s.current + 1 +
      ((s.source.drop (s.current + 1)).takeWhile pyIsDigit).length) =
      s.source[s.current] :: (s.source.drop (s.current + 1)).takeWhile pyIsDigit := by
    rw [hst, pySlice_eq_take_drop _ (by omega),
      show s.current + 1 +
        ((s.source.drop (s.current + 1)).takeWhile pyIsDigit).length - s.current =
        ((s.source.drop (s.current + 1)).takeWhile pyIsDigit).length + 1 from by
          omega,
      List.drop_eq_getElem_cons hcur, List.take_succ_cons, take_length_takeWhile]
  have hcond2 : ¬ (s.source.getD (s.current + 1 +
        ((s.source.drop (s.current + 1)).takeWhile pyIsDigit).length) '\x00' = '.' ∧
      pyIsDigit (s.source.getD (s.current + 1 +
        ((s.source.drop (s.current + 1)).takeWhile pyIsDigit).length + 1)
        '\x00') = true) := by
    rw [show s.current + 1 +
        ((s.source.drop (s.current + 1)).takeWhile pyIsDigit).length =
        s.current + ((s.source.drop s.current).takeWhile pyIsDigit).length from by
          omega]
    exact hcond
  rw [scanToken_digit s hd, scanNumber_nodot _ hcond2]
  refine congrArg Except.ok ?_
  rw [show (({ s with current := s.current + 1 } : ScannerState).source.drop
      ({ s with current := s.current + 1 } : ScannerState).current).takeWhile
      pyIsDigit = (s.source.drop (s.current + 1)).takeWhile pyIsDigit from rfl]
  simp [hlex, hds]
  omega

/-- What `__scanToken` does on a fractional number lexeme, phrased from the
start of the lexeme: when the character after the maximal digit run is a dot
followed by another digit, the dot and the second maximal digit run are also
consumed, and the token carries the whole lexeme and its decoded value. -/
theorem scanToken_number_dot_spec (s : ScannerState) (hst : s.start = s.current)
    (hd : pyIsDigit (peek s) = true)
    (hdot : s.source.getD
        (s.current + ((s.source.drop s.current).takeWhile pyIsDigit).length)
        '\x00' = '.' ∧
      pyIsDigit (s.source.getD
        (s.current + ((s.source.drop s.current).takeWhile pyIsDigit).length + 1)
        '\x00') = true) :
    scanToken s = .ok { s with
      current := s.current + ((s.source.drop s.current).takeWhile pyIsDigit).length
        + 1 +
        ((s.source.drop
          (s.current + ((s.source.drop s.current).takeWhile pyIsDigit).length +
            1)).takeWhile pyIsDigit).length,
      tokens := s.tokens ++
        [{ type := TokenType.NUMBER,
           lexeme := (s.source.drop s.current).takeWhile pyIsDigit ++ '.' ::
             (s.source.drop
               (s.current + ((s.source.drop s.current).takeWhile pyIsDigit).length +
                 1)).takeWhile pyIsDigit,
           literal := Literal.num (pyFloat
             ((s.source.drop s.current).takeWhile pyIsDigit ++ '.' ::
               (s.source.drop
                 (s.current +
                   ((s.source.drop s.current).takeWhile pyIsDigit).length +
                   1)).takeWhile pyIsDigit)),
           line := s.line }] } := by
  have hcur : s.current < s.source.length := by
    refine lt_length_of_getD (c := peek s) ?_ (ne_of_pred hd (by decide))
    rw [← peek_eq_getD]
  have hdE : pyIsDigit s.source[s.current] = true := by
    rw [← peek_eq_getElem hcur]
    exact hd
  have hds : (s.source.drop s.current).takeWhile pyIsDigit =
      s.source[s.current] :: (s.source.drop (s.current + 1)).takeWhile pyIsDigit := by
    rw [List.drop_eq_getElem_cons hcur, List.takeWhile_cons_of_pos hdE]
  have hlen : ((s.source.drop s.current).takeWhile pyIsDigit).length =
      ((s.source.drop (s.current + 1)).takeWhile pyIsDigit).length + 1 := by
    rw [hds]
    rfl
  have hdot2 : s.source.getD (s.current + 1 +
        ((s.source.drop (s.current + 1)).takeWhile pyIsDigit).length) '\x00' = '.' ∧
      pyIsDigit (s.source.getD (s.current + 1 +
        ((s.source.drop (s.current + 1)).takeWhile pyIsDigit).length + 1)
        '\x00') = true := by
    rw [show s.current + 1 +
        ((s.source.drop (s.current + 1)).takeWhile pyIsDigit).length =
        s.current + ((s.source.drop s.current).takeWhile pyIsDigit).length from by
          rw [hlen]
          omega]
    exact hdot
  have hj : s.current + ((s.source.drop s.current).takeWhile pyIsDigit).length <
      s.source.length :=
    lt_length_of_getD hdot.1 (by decide)
  have hjE : s.source[s.current +
      ((s.source.drop s.current).takeWhile pyIsDigit).length] = '.' := by
    have h := hdot.1
    rwa [List.getD_eq_getElem?_getD, List.getElem?_eq_getElem hj,
      Option.getD_some] at h
  have hdsplit : s.source.drop s.current =
      (s.source.drop s.current).takeWhile pyIsDigit ++ '.' ::
        s.source.drop (s.current +
          ((s.source.drop s.current).takeWhile pyIsDigit).length + 1) := by
    conv_lhs => rw [← List.takeWhile_append_dropWhile pyIsDigit
      (s.source.drop s.current)]
    rw [dropWhile_eq_drop_tw, List.drop_drop]
    rw [List.drop_eq_getElem_cons hj, hjE]
  have hlex : pySlice s.source s.start
      (s.current + ((s.source.drop s.current).takeWhile pyIsDigit).length + 1 +
        ((s.source.drop (s.current +
          ((s.source.drop s.current).takeWhile pyIsDigit).length + 1)).takeWhile
            pyIsDigit).length) =
      (s.source.drop s.current).takeWhile pyIsDigit ++ '.' ::
        (s.source.drop (s.current +
          ((s.source.drop s.current).takeWhile pyIsDigit).length + 1)).takeWhile
            pyIsDigit := by
    generalize hF : (s.source.drop (s.current +
      ((s.source.drop s.current).takeWhile pyIsDigit).length + 1)).takeWhile
        pyIsDigit = F
    generalize hD : (s.source.drop s.current).takeWhile pyIsDigit = D
    rw [hD] at hdsplit hF
    rw [hst, pySlice_eq_take_drop _ (by omega),
      show s.current + D.length + 1 + F.length - s.current =
        D.length + (F.length + 1) from by omega,
      hdsplit, take_append_len, List.take_succ_cons, ← hF, take_length_takeWhile]
  rw [scanToken_digit s hd, scanNumber_dot _ hdot2]
  refine congrArg Except.ok ?_
  rw [show (({ s with current := s.current + 1 } : ScannerState).source.drop
      ({ s with current := s.current + 1 } : ScannerState).current).takeWhile
      pyIsDigit = (s.source.drop (s.current + 1)).takeWhile pyIsDigit from rfl]
  rw [show ({ s with current := s.current + 1 } : ScannerState).current =
      s.current + 1 from rfl,
    show ({ s with current := s.current + 1 } : ScannerState).source =
      s.source from rfl,
    show ({ s with current := s.current + 1 } : ScannerState).start =
      s.start from rfl,
    show ({ s with current := s.current + 1 } : ScannerState).line =
      s.line from rfl,
    show ({ s with current := s.current + 1 } : ScannerState).tokens =
      s.tokens from rfl]
  rw [show s.current + 1 +
      ((s.source.drop (s.current + 1)).takeWhile pyIsDigit).length =
      s.current + ((s.source.drop s.current).takeWhile pyIsDigit).length from by
        rw [hlen]
        omega]
  rw [hlex]

/-- What `__scanToken` does on an identifier-shaped lexeme, phrased from
the start of the lexeme: the maximal run of alphanumeric/underscore
characters is consumed, the reserved-word table decides the kind, and the
token carries the exact lexeme with no literal. -/
theorem scanToken_ident_spec (s : ScannerState) (hst : s.start = s.current)
    (ha : pyIsAlpha (peek s) = true ∨ peek s = '_') :
    scanToken s = .ok { s with
      current := s.current + ((s.source.drop s.current).takeWhile isIdentChar).length,
      tokens := s.tokens ++
        [{ type := (KEYWORDS
             ((s.source.drop s.current).takeWhile isIdentChar)).getD
               TokenType.IDENTIFIER,
           lexeme := (s.source.drop s.current).takeWhile isIdentChar,
           literal := Literal.none,
           line := s.line }] } := by
  have hic : isIdentChar (peek s) = true := by
    rcases ha with h | h
    · simp [isIdentChar, h]
    · rw [h]
      decide
  have hcur : s.current < s.source.length := by
    refine lt_length_of_getD (c := peek s) ?_ (ne_of_pred hic (by decide))
    rw [← peek_eq_getD]
  have hicE : isIdentChar s.source[s.current] = true := by
    rw [← peek_eq_getElem hcur]
    exact hic
  have hds : (s.source.drop s.current).takeWhile isIdentChar =
      s.source[s.current] :: (s.source.drop (s.current + 1)).takeWhile isIdentChar := by
    rw [List.drop_eq_getElem_cons hcur, List.takeWhile_cons_of_pos hicE]
  have hlex : pySlice s.source s.start (s.current + 1 +
      ((s.source.drop (s.current + 1)).takeWhile isIdentChar).length) =
      s.source[s.current] :: (s.source.drop (s.current + 1)).takeWhile isIdentChar := by
    rw [hst, pySlice_eq_take_drop _ (by omega),
      show s.current + 1 +
        ((s.source.drop (s.current + 1)).takeWhile isIdentChar).length - s.current =
        ((s.source.drop (s.current + 1)).takeWhile isIdentChar).length + 1 from by
          omega,
      List.drop_eq_getElem_cons hcur, List.take_succ_cons, take_length_takeWhile]
  rw [scanToken_alpha s ha, scanIdentifier_spec _]
  refine congrArg Except.ok ?_
  rw [show (({ s with current := s.current + 1 } : ScannerState).source.drop
      ({ s with current := s.current + 1 } : ScannerState).current).takeWhile
      isIdentChar = (s.source.drop (s.current + 1)).takeWhile isIdentChar from rfl]
  simp [hlex, hds]
  omega

/-- Any error coming out of `Scanner.__string` carries the
unterminated-string message. -/
theorem scanString_error_msg (s0 : ScannerState) (e : ScannerError)
    (h : scanString s0 = .error e) : e.message = untermMsg := by
  simp only [scanString] at h
  by_cases hend : isAtEnd (stringLoopF (remaining s0) s0) = true
  · rw [if_pos hend] at h
    injection h with h
    rw [← h]
  · rw [if_neg hend] at h
    cases h

/-! ## The claims -/

/-- C1: whenever `scanTokens` returns normally, the returned token list is
non-empty, its last element is the EOF token with an empty lexeme, no
literal, and the final line count (one plus the number of newlines in the
source), and no element before the last has the EOF kind. -/
theorem C1_eof_structure (code : List Char) (toks : List Token)
    (h : scanTokens code = .ok toks) :
    toks ≠ [] ∧
    toks.getLast? =
      some { type := TokenType.EOF, lexeme := [], literal := Literal.none,
             line := 1 + countNL code } ∧
    ∀ t ∈ toks.dropLast, t.type ≠ TokenType.EOF := by
  obtain ⟨sf, hA, hB, hC, hD, hE, hF, hG⟩ := scanTokens_ok code toks h
  subst hB
  refine ⟨by simp, ?_, ?_⟩
  · rw [List.getLast?_concat, hF]
  · rw [List.dropLast_concat]
    intro t ht
    exact (hG t ht).1

/-- C2: the two error conditions of the scanner, exactly.  (a) at a string
literal with no closing quote before end of input, `__scanToken` raises the
unterminated-string message at the current line (the line after counting
the newlines of the unterminated remainder); (b) at a character that starts
no token case, it raises the unexpected-character message at the current
line; (c) every error `__scanToken` raises is of one of those two shapes;
(d) an error of `scanTokens` is the error of the first failing
`__scanToken` call (the scan aborts there), and is of one of the two
shapes. -/
theorem C2_error_conditions :
    (∀ s : ScannerState, peek s = '"' →
      (∀ c ∈ s.source.drop (s.current + 1), ¬ c = '"') →
      scanToken s =
        .error { line := s.line + countNL (s.source.drop (s.current + 1)),
                 message := untermMsg }) ∧
    (∀ s : ScannerState, startsToken (peek s) = false →
      scanToken s = .error { line := s.line, message := unexpectedMsg (peek s) }) ∧
    (∀ (s : ScannerState) (e : ScannerError), scanToken s = .error e →
      e.message = untermMsg ∨
        ∃ c, startsToken c = false ∧ e.message = unexpectedMsg c) ∧
    (∀ (code : List Char) (e : ScannerError), scanTokens code = .error e →
      (∃ s1 : ScannerState, ¬ isAtEnd s1 = true ∧
        scanToken { s1 with start := s1.current } = .error e) ∧
      (e.message = untermMsg ∨
        ∃ c, startsToken c = false ∧ e.message = unexpectedMsg c)) := by
  have hclass : ∀ (s : ScannerState) (e : ScannerError), scanToken s = .error e →
      e.message = untermMsg ∨
        ∃ c, startsToken c = false ∧ e.message = unexpectedMsg c := by
    intro s e h
    by_cases hstart : startsToken (peek s) = true
    · by_cases hq : peek s = '"'
      · rw [scanToken_quote s hq] at h
        exact Or.inl (scanString_error_msg _ _ h)
      · obtain ⟨s1, hok⟩ := scanToken_ok_of_startsToken s hstart hq
        rw [hok] at h
        cases h
    · have hf : startsToken (peek s) = false := by simpa using hstart
      rw [scanToken_errorChar s hf] at h
      injection h with h
      refine Or.inr ⟨peek s, hf, ?_⟩
      rw [← h]
  refine ⟨?_, ?_, hclass, ?_⟩
  · intro s hq hterm
    rw [scanToken_quote s hq, scanString_err _ hterm]
  · intro s hf
    exact scanToken_errorChar s hf
  · intro code e h
    have hlift : ∃ s1 : ScannerState, ¬ isAtEnd s1 = true ∧
        scanToken { s1 with start := s1.current } = .error e := by
      unfold scanTokens scanTokensMethod at h
      match hsc : scanLoopF (remaining (initState code) + 1) (initState code) with
      | .ok sf =>
        rw [hsc] at h
        simp only [Except.map] at h
        cases h
      | .error e1 =>
        rw [hsc] at h
        simp only [Except.map] at h
        injection h with h
        subst h
        exact scanLoopF_error_source _ _ _ hsc
    obtain ⟨s1, hne, herr⟩ := hlift
    exact ⟨⟨s1, hne, herr⟩, hclass _ _ herr⟩

/-- C3: maximal munch for the two-character operators.  After one of
`!`, `=`, `<`, `>`, an immediately following `=` is consumed and the
two-character kind is emitted (with the two-character lexeme); otherwise
the one-character kind is emitted.  Concretely, `!=` scans as one
BANG_EQUAL token (never BANG then EQUAL), `!` as BANG, and `==`, `<=`,
`>=` as their two-character kinds. -/
theorem C3_maximal_munch :
    (∀ (s : ScannerState) (c : Char) (k1 k2 : TokenType),
      (c, k1, k2) ∈ [('!', TokenType.BANG_EQUAL, TokenType.BANG),
        ('=', TokenType.EQUAL_EQUAL, TokenType.EQUAL),
        ('<', TokenType.LESS_EQUAL, TokenType.LESS),
        ('>', TokenType.GREATER_EQUAL, TokenType.GREATER)] →
      peek s = c → s.source.getD (s.current + 1) '\x00' = '=' →
      scanToken s = .ok { s with
        current := s.current + 1 + 1,
        tokens := s.tokens ++
          [{ type := k1,
             lexeme := pySlice s.source s.start (s.current + 1 + 1),
             literal := Literal.none, line := s.line }] }) ∧
    (∀ (s : ScannerState) (c : Char) (k1 k2 : TokenType),
      (c, k1, k2) ∈ [('!', TokenType.BANG_EQUAL, TokenType.BANG),
        ('=', TokenType.EQUAL_EQUAL, TokenType.EQUAL),
        ('<', TokenType.LESS_EQUAL, TokenType.LESS),
        ('>', TokenType.GREATER_EQUAL, TokenType.GREATER)] →
      peek s = c → ¬ s.source.getD (s.current + 1) '\x00' = '=' →
      scanToken s = .ok { s with
        current := s.current + 1,
        tokens := s.tokens ++
          [{ type := k2,
             lexeme := pySlice s.source s.start (s.current + 1),
             literal := Literal.none, line := s.line }] }) ∧
    scanTokens ['!', '='] = .ok [
      { type := TokenType.BANG_EQUAL, lexeme := ['!', '='],
        literal := Literal.none, line := 1 },
      { type := TokenType.EOF, lexeme := [], literal := Literal.none, line := 1 }] ∧
    scanTokens ['!'] = .ok [
      { type := TokenType.BANG, lexeme := ['!'],
        literal := Literal.none, line := 1 },
      { type := TokenType.EOF, lexeme := [], literal := Literal.none, line := 1 }] ∧
    scanTokens ['=', '='] = .ok [
      { type := TokenType.EQUAL_EQUAL, lexeme := ['=', '='],
        literal := Literal.none, line := 1 },
      { type := TokenType.EOF, lexeme := [], literal := Literal.none, line := 1 }] ∧
    scanTokens ['<', '='] = .ok [
      { type := TokenType.LESS_EQUAL, lexeme := ['<', '='],
        literal := Literal.none, line := 1 },
      { type := TokenType.EOF, lexeme := [], literal := Literal.none, line := 1 }] ∧
    scanTokens ['>', '='] = .ok [
      { type := TokenType.GREATER_EQUAL, lexeme := ['>', '='],
        literal := Literal.none, line := 1 },
      { type := TokenType.EOF, lexeme := [], literal := Literal.none, line := 1 }] := by
  refine ⟨?_, ?_, by rfl, by rfl, by rfl, by rfl, by rfl⟩
  · intro s c k1 k2 hmem hc heq
    rw [scanToken_twoChar s c k1 k2 hmem hc,
      matchExpected_eq _ '=' (by decide)]
    rw [if_pos (show ({ s with current := s.current + 1 } : ScannerState).source.getD
      ({ s with current := s.current + 1 } : ScannerState).current '\x00' = '=' from heq)]
    rfl
  · intro s c k1 k2 hmem hc heq
    rw [scanToken_twoChar s c k1 k2 hmem hc,
      matchExpected_eq _ '=' (by decide)]
    rw [if_neg (show ¬ ({ s with current := s.current + 1 } : ScannerState).source.getD
      ({ s with current := s.current + 1 } : ScannerState).current '\x00' = '=' from heq)]
    rfl

/-- C4: terminated string literals.  When the cursor sits on an opening
quote and a closing quote occurs later, `__scanToken` consumes through the
closing quote, bumps the line counter once per newline inside the string,
and emits a STRING token whose lexeme is the full quoted text including
both quotes and whose literal is exactly the characters strictly between
the quotes, unprocessed.  Concretely, a string spanning a newline scans
successfully with its newline kept verbatim in the literal. -/
theorem C4_string_literals :
    (∀ s : ScannerState, s.start = s.current → peek s = '"' →
      '"' ∈ s.source.drop (s.current + 1) →
      scanToken s = .ok { s with
        current := s.current + 1 +
          ((s.source.drop (s.current + 1)).takeWhile notQuote).length + 1,
        line := s.line +
          countNL ((s.source.drop (s.current + 1)).takeWhile notQuote),
        tokens := s.tokens ++
          [{ type := TokenType.STRING,
             lexeme := '"' ::
               ((s.source.drop (s.current + 1)).takeWhile notQuote ++ ['"']),
             literal :=
               Literal.str ((s.source.drop (s.current + 1)).takeWhile notQuote),
             line := s.line +
               countNL ((s.source.drop (s.current + 1)).takeWhile notQuote) }] }) ∧
    scanTokens ['"', 'a', '\n', 'b', '"'] = .ok [
      { type := TokenType.STRING, lexeme := ['"', 'a', '\n', 'b', '"'],
        literal := Literal.str ['a', '\n', 'b'], line := 2 },
      { type := TokenType.EOF, lexeme := [], literal := Literal.none, line := 2 }] :=
  ⟨fun s hst hq hterm => scanToken_string_spec s hst hq hterm, by rfl⟩

/-- C5: number scanning.  A maximal run of digits is consumed; a following
dot is consumed only when the character after it is again a digit, in which
case a second maximal digit run is consumed too; the NUMBER token carries
the matched lexeme and its decoded numeric value.  Concretely, `123.`
scans as NUMBER `123` followed by a separate DOT token, never as one
malformed number. -/
theorem C5_number_scanning :
    (∀ s : ScannerState, s.start = s.current → pyIsDigit (peek s) = true →
      ¬ (s.source.getD
          (s.current + ((s.source.drop s.current).takeWhile pyIsDigit).length)
          '\x00' = '.' ∧
        pyIsDigit (s.source.getD
          (s.current + ((s.source.drop s.current).takeWhile pyIsDigit).length + 1)
          '\x00') = true) →
      scanToken s = .ok { s with
        current := s.current + ((s.source.drop s.current).takeWhile pyIsDigit).length,
        tokens := s.tokens ++
          [{ type := TokenType.NUMBER,
             lexeme := (s.source.drop s.current).takeWhile pyIsDigit,
             literal := Literal.num
               (pyFloat ((s.source.drop s.current).takeWhile pyIsDigit)),
             line := s.line }] }) ∧
    (∀ s : ScannerState, s.start = s.current → pyIsDigit (peek s) = true →
      s.source.getD
          (s.current + ((s.source.drop s.current).takeWhile pyIsDigit).length)
          '\x00' = '.' ∧
        pyIsDigit (s.source.getD
          (s.current + ((s.source.drop s.current).takeWhile pyIsDigit).length + 1)
          '\x00') = true →
      scanToken s = .ok { s with
        current := s.current + ((s.source.drop s.current).takeWhile pyIsDigit).length
          + 1 +
          ((s.source.drop
            (s.current + ((s.source.drop s.current).takeWhile pyIsDigit).length +
              1)).takeWhile pyIsDigit).length,
        tokens := s.tokens ++
          [{ type := TokenType.NUMBER,
             lexeme := (s.source.drop s.current).takeWhile pyIsDigit ++ '.' ::
               (s.source.drop
                 (s.current + ((s.source.drop s.current).takeWhile pyIsDigit).length +
                   1)).takeWhile pyIsDigit,
             literal := Literal.num (pyFloat
               ((s.source.drop s.current).takeWhile pyIsDigit ++ '.' ::
                 (s.source.drop
                   (s.current +
                     ((s.source.drop s.current).takeWhile pyIsDigit).length +
                     1)).takeWhile pyIsDigit)),
             line := s.line }] }) ∧
    scanTokens ['1', '2', '3', '.'] = .ok [
      { type := TokenType.NUMBER, lexeme := ['1', '2', '3'],
        literal := Literal.num 123, line := 1 },
      { type := TokenType.DOT, lexeme := ['.'], literal := Literal.none, line := 1 },
      { type := TokenType.EOF, lexeme := [], literal := Literal.none, line := 1 }] ∧
    scanTokens ['1', '2', '.', '5'] = .ok [
      { type := TokenType.NUMBER, lexeme := ['1', '2', '.', '5'],
        literal := Literal.num (pyFloat ['1', '2', '.', '5']), line := 1 },
      { type := TokenType.EOF, lexeme := [], literal := Literal.none, line := 1 }] ∧
    pyFloat ['1', '2', '.', '5'] = 25 / 2 :=
  ⟨fun s hst hd hcond => scanToken_number_nodot_spec s hst hd hcond,
   fun s hst hd hdot => scanToken_number_dot_spec s hst hd hdot,
   by rfl, by rfl,
   by
    have h : pyFloat ['1', '2', '.', '5'] =
        ((12 : Nat) : ℚ) + ((5 : Nat) : ℚ) / (10 : ℚ) ^ (1 : Nat) := rfl
    rw [h]
    norm_num⟩

/-- C6: identifiers and keywords.  An identifier-shaped lexeme (initial
letter or underscore, then the maximal alphanumeric/underscore run) is
looked up in the reserved-word table: the token kind is the table entry
when the whole lexeme is a key and IDENTIFIER otherwise; either way the
token keeps the exact lexeme and has no literal.  Concretely, `classic`
is an IDENTIFIER (not CLASS) and `class` is a CLASS keyword token that
still carries its lexeme. -/
theorem C6_identifiers_keywords :
    (∀ s : ScannerState, s.start = s.current →
      pyIsAlpha (peek s) = true ∨ peek s = '_' →
      scanToken s = .ok { s with
        current := s.current + ((s.source.drop s.current).takeWhile isIdentChar).length,
        tokens := s.tokens ++
          [{ type := (KEYWORDS
               ((s.source.drop s.current).takeWhile isIdentChar)).getD
                 TokenType.IDENTIFIER,
             lexeme := (s.source.drop s.current).takeWhile isIdentChar,
             literal := Literal.none,
             line := s.line }] }) ∧
    (∀ (text : List Char) (k : TokenType), KEYWORDS text = some k →
      (KEYWORDS text).getD TokenType.IDENTIFIER = k) ∧
    (∀ text : List Char, KEYWORDS text = none →
      (KEYWORDS text).getD TokenType.IDENTIFIER = TokenType.IDENTIFIER) ∧
    scanTokens ['c', 'l', 'a', 's', 's', 'i', 'c'] = .ok [
      { type := TokenType.IDENTIFIER, lexeme := ['c', 'l', 'a', 's', 's', 'i', 'c'],
        literal := Literal.none, line := 1 },
      { type := TokenType.EOF, lexeme := [], literal := Literal.none, line := 1 }] ∧
    scanTokens ['c', 'l', 'a', 's', 's'] = .ok [
      { type := TokenType.CLASS, lexeme := ['c', 'l', 'a', 's', 's'],
        literal := Literal.none, line := 1 },
      { type := TokenType.EOF, lexeme := [], literal := Literal.none, line := 1 }] :=
  ⟨fun s hst ha => scanToken_ident_spec s hst ha,
   fun text k hk => by rw [hk, Option.getD_some],
   fun text hk => by rw [hk, Option.getD_none],
   by rfl, by rfl⟩

/-- C7 counterexample: the claim predicts every non-EOF token's line to be
one plus the number of newlines strictly before the token's first
character.  For the source quote-newline-quote the STRING token starts at
index 0, so the claim predicts line 1; the scanner emits the token with
the line current at emission time, namely 2. -/
theorem C7_line_counting_counterexample :
    scanTokens ['"', '\n', '"'] = .ok [
      { type := TokenType.STRING, lexeme := ['"', '\n', '"'],
        literal := Literal.str ['\n'], line := 2 },
      { type := TokenType.EOF, lexeme := [], literal := Literal.none, line := 2 }] ∧
    1 + countNL ((['"', '\n', '"'] : List Char).take 0) = 1 ∧
    ¬ (2 : Nat) = 1 :=
  ⟨by rfl, by rfl, by decide⟩

/-- C7 (amended): on a successful scan the EOF token's line is one plus
the number of newlines in the whole input, and every other token's line is
one plus the number of newlines strictly before the END of that token's
lexeme (for multi-line string tokens this differs from the count before
the token's first character, see the counterexample); a `//` comment
contributes no token while its trailing newline still increments the line
counter. -/
theorem C7_line_counting (code : List Char) (toks : List Token)
    (h : scanTokens code = .ok toks) :
    toks.getLast? =
      some { type := TokenType.EOF, lexeme := [], literal := Literal.none,
             line := 1 + countNL code } ∧
    (∀ t ∈ toks.dropLast, ∃ st e, st ≤ e ∧ e ≤ code.length ∧
      t.lexeme = pySlice code st e ∧ t.line = 1 + countNL (code.take e)) ∧
    scanTokens "// comment\n123".data = .ok [
      { type := TokenType.NUMBER, lexeme := ['1', '2', '3'],
        literal := Literal.num 123, line := 2 },
      { type := TokenType.EOF, lexeme := [], literal := Literal.none, line := 2 }] := by
  obtain ⟨sf, hA, hB, hC, hD, hE, hF, hG⟩ := scanTokens_ok code toks h
  subst hB
  refine ⟨?_, ?_, by rfl⟩
  · rw [List.getLast?_concat, hF]
  · rw [List.dropLast_concat]
    intro t ht
    exact (hG t ht).2

/-- C8: the scanner-state invariant.  The fresh scanner satisfies it, one
loop iteration preserves it while never decreasing the line counter, and
therefore every state the driver loop reaches satisfies
`start <= current <= len(source)` (the lower bound `0 <= start` is
inherent in `Nat`) with the line counter equal to one plus the number of
newline characters consumed so far — that is, `line` is incremented
exactly once per consumed newline, hence monotonically non-decreasing. -/
theorem C8_state_invariants :
    (∀ code : List Char, Inv (initState code)) ∧
    (∀ s s1 : ScannerState, Inv s → Step s s1 → Inv s1 ∧ s.line ≤ s1.line) ∧
    (∀ (code : List Char) (s : ScannerState), Reaches (initState code) s →
      s.start ≤ s.current ∧ s.current ≤ s.source.length ∧
      s.line = 1 + countNL (s.source.take s.current)) := by
  refine ⟨Inv_initState, ?_, ?_⟩
  · intro s s1 hInv hstep
    obtain ⟨h1, _, _, h4, _⟩ := step_preserves s s1 hInv hstep
    exact ⟨h1, h4⟩
  · intro code s h
    have hInv : Inv s := by
      induction h with
      | refl => exact Inv_initState code
      | tail hab hbc ih => exact (step_preserves _ _ ih hbc).1
    exact hInv

/-- C9: a backslash has no escaping effect inside a string literal.  The
string loop stops at the first quote character after the opening quote,
whatever characters (including backslashes) precede it, and the emitted
literal is exactly those characters; concretely, quote-a-backslash-quote
scans to a STRING whose literal is the two characters a, backslash. -/
theorem C9_backslash_no_escape :
    (∀ (s : ScannerState) (pre rest : List Char),
      s.start = s.current → peek s = '"' →
      s.source.drop (s.current + 1) = pre ++ '"' :: rest →
      (∀ c ∈ pre, ¬ c = '"') →
      scanToken s = .ok { s with
        current := s.current + 1 + pre.length + 1,
        line := s.line + countNL pre,
        tokens := s.tokens ++
          [{ type := TokenType.STRING, lexeme := '"' :: (pre ++ ['"']),
             literal := Literal.str pre,
             line := s.line + countNL pre }] }) ∧
    scanTokens ['"', 'a', '\\', '"'] = .ok [
      { type := TokenType.STRING, lexeme := ['"', 'a', '\\', '"'],
        literal := Literal.str ['a', '\\'], line := 1 },
      { type := TokenType.EOF, lexeme := [], literal := Literal.none, line := 1 }] := by
  refine ⟨?_, by rfl⟩
  intro s pre rest hst hq hsplit hpre
  have htw : (s.source.drop (s.current + 1)).takeWhile notQuote = pre := by
    rw [hsplit, List.takeWhile_append_of_pos
      (by intro a ha; simp [notQuote, hpre a ha]),
      List.takeWhile_cons_of_neg (by decide)]
    simp
  have hterm : '"' ∈ s.source.drop (s.current + 1) := by
    rw [hsplit]
    simp
  rw [scanToken_string_spec s hst hq hterm, htw]

/-- C10: `scanTokens` is not idempotent on the scanner instance.  A second
call on the instance state left by a successful first call returns
normally with one more token: the whole cursor is already consumed, so the
second call only appends another EOF token, leaving the last two tokens
both of the EOF kind (at the unchanged final line). -/
theorem C10_not_idempotent (code : List Char) (s1 : ScannerState)
    (h : scanTokensMethod (initState code) = .ok s1) :
    ∃ s2, scanTokensMethod s1 = .ok s2 ∧
      s2.tokens.length = s1.tokens.length + 1 ∧
      s2.tokens.getLast? =
        some { type := TokenType.EOF, lexeme := [], literal := Literal.none,
               line := s1.line } ∧
      s2.tokens.dropLast.getLast? =
        some { type := TokenType.EOF, lexeme := [], literal := Literal.none,
               line := s1.line } := by
  unfold scanTokensMethod at h
  match hsc : scanLoopF (remaining (initState code) + 1) (initState code) with
  | .error e =>
    rw [hsc] at h
    cases h
  | .ok sf =>
    rw [hsc] at h
    simp only [Except.map] at h
    injection h with h
    obtain ⟨hsrc0, _, hInv, hend, _, _⟩ :=
      scanLoopF_ok _ _ _ (Inv_initState code)
        (by simp only [initState, remaining]; omega) hsc
    have hend1 : isAtEnd s1 = true := by
      rw [← h]
      exact hend
    have hrem : remaining s1 = 0 := by
      rw [isAtEnd_iff] at hend1
      simp only [remaining]
      omega
    refine ⟨{ s1 with tokens := s1.tokens ++
        [{ type := TokenType.EOF, lexeme := [], literal := Literal.none,
           line := s1.line }] }, ?_, by simp, ?_, ?_⟩
    · unfold scanTokensMethod
      rw [hrem]
      rw [show scanLoopF (0 + 1) s1 = .ok s1 from by rw [scanLoopF, if_pos hend1]]
      rfl
    · show (s1.tokens ++
        [({ type := TokenType.EOF, lexeme := [], literal := Literal.none,
            line := s1.line } : Token)]).getLast? = _
      rw [List.getLast?_concat]
    · show (s1.tokens ++
        [({ type := TokenType.EOF, lexeme := [], literal := Literal.none,
            line := s1.line } : Token)]).dropLast.getLast? = _
      rw [List.dropLast_concat, ← h]
      show (sf.tokens ++
        [({ type := TokenType.EOF, lexeme := [], literal := Literal.none,
            line := sf.line } : Token)]).getLast? = _
      rw [List.getLast?_concat]

/-! ## Closed witnesses instantiating the claims at concrete inputs -/

/-- C1 at the one-character source `+`. -/
theorem C1_eof_structure_witness :
    ([{ type := TokenType.PLUS, lexeme := ['+'], literal := Literal.none, line := 1 },
      { type := TokenType.EOF, lexeme := [], literal := Literal.none, line := 1 }] :
        List Token) ≠ [] ∧
    ([{ type := TokenType.PLUS, lexeme := ['+'], literal := Literal.none, line := 1 },
      { type := TokenType.EOF, lexeme := [], literal := Literal.none, line := 1 }] :
        List Token).getLast? =
      some { type := TokenType.EOF, lexeme := [], literal := Literal.none,
             line := 1 + countNL ['+'] } ∧
    ∀ t ∈ ([{ type := TokenType.PLUS, lexeme := ['+'], literal := Literal.none,
              line := 1 },
      { type := TokenType.EOF, lexeme := [], literal := Literal.none, line := 1 }] :
        List Token).dropLast, t.type ≠ TokenType.EOF :=
  C1_eof_structure ['+']
    [{ type := TokenType.PLUS, lexeme := ['+'], literal := Literal.none, line := 1 },
     { type := TokenType.EOF, lexeme := [], literal := Literal.none, line := 1 }]
    (by rfl)

/-- C2 at the one-character source `@`: the unexpected-character error. -/
theorem C2_error_conditions_witness :
    scanToken (initState ['@']) =
      .error { line := (initState ['@']).line,
               message := unexpectedMsg (peek (initState ['@'])) } :=
  C2_error_conditions.2.1 (initState ['@']) (by decide)

/-- C3 at the source `!=`: the two-character arm. -/
theorem C3_maximal_munch_witness :
    scanToken (initState ['!', '=']) = .ok { initState ['!', '='] with
      current := (initState ['!', '=']).current + 1 + 1,
      tokens := (initState ['!', '=']).tokens ++
        [{ type := TokenType.BANG_EQUAL,
           lexeme := pySlice (initState ['!', '=']).source (initState ['!', '=']).start
             ((initState ['!', '=']).current + 1 + 1),
           literal := Literal.none, line := (initState ['!', '=']).line }] } :=
  C3_maximal_munch.1 (initState ['!', '=']) '!' TokenType.BANG_EQUAL TokenType.BANG
    (by decide) (by decide) (by decide)

/-- C4 at the source quote-a-quote. -/
theorem C4_string_literals_witness :
    scanToken (initState ['"', 'a', '"']) = .ok { initState ['"', 'a', '"'] with
      current := (initState ['"', 'a', '"']).current + 1 +
        (((initState ['"', 'a', '"']).source.drop
          ((initState ['"', 'a', '"']).current + 1)).takeWhile notQuote).length + 1,
      line := (initState ['"', 'a', '"']).line +
        countNL (((initState ['"', 'a', '"']).source.drop
          ((initState ['"', 'a', '"']).current + 1)).takeWhile notQuote),
      tokens := (initState ['"', 'a', '"']).tokens ++
        [{ type := TokenType.STRING,
           lexeme := '"' :: ((((initState ['"', 'a', '"']).source.drop
             ((initState ['"', 'a', '"']).current + 1)).takeWhile notQuote) ++ ['"']),
           literal := Literal.str (((initState ['"', 'a', '"']).source.drop
             ((initState ['"', 'a', '"']).current + 1)).takeWhile notQuote),
           line := (initState ['"', 'a', '"']).line +
             countNL (((initState ['"', 'a', '"']).source.drop
               ((initState ['"', 'a', '"']).current + 1)).takeWhile notQuote) }] } :=
  C4_string_literals.1 (initState ['"', 'a', '"']) (by decide) (by decide) (by decide)

/-- C5 at the one-digit source `7`: the no-dot arm. -/
theorem C5_number_scanning_witness :
    scanToken (initState ['7']) = .ok { initState ['7'] with
      current := (initState ['7']).current +
        (((initState ['7']).source.drop
          (initState ['7']).current).takeWhile pyIsDigit).length,
      tokens := (initState ['7']).tokens ++
        [{ type := TokenType.NUMBER,
           lexeme := ((initState ['7']).source.drop
             (initState ['7']).current).takeWhile pyIsDigit,
           literal := Literal.num (pyFloat (((initState ['7']).source.drop
             (initState ['7']).current).takeWhile pyIsDigit)),
           line := (initState ['7']).line }] } :=
  C5_number_scanning.1 (initState ['7']) (by decide) (by decide) (by decide)

/-- C6 at the one-letter source `x`. -/
theorem C6_identifiers_keywords_witness :
    scanToken (initState ['x']) = .ok { initState ['x'] with
      current := (initState ['x']).current +
        (((initState ['x']).source.drop
          (initState ['x']).current).takeWhile isIdentChar).length,
      tokens := (initState ['x']).tokens ++
        [{ type := (KEYWORDS (((initState ['x']).source.drop
             (initState ['x']).current).takeWhile isIdentChar)).getD
               TokenType.IDENTIFIER,
           lexeme := ((initState ['x']).source.drop
             (initState ['x']).current).takeWhile isIdentChar,
           literal := Literal.none,
           line := (initState ['x']).line }] } :=
  C6_identifiers_keywords.1 (initState ['x']) (by decide) (by decide)

/-- C7 (amended) at the one-character source newline. -/
theorem C7_line_counting_witness :
    ([{ type := TokenType.EOF, lexeme := [], literal := Literal.none, line := 2 }] :
        List Token).getLast? =
      some { type := TokenType.EOF, lexeme := [], literal := Literal.none,
             line := 1 + countNL ['\n'] } ∧
    (∀ t ∈ ([{ type := TokenType.EOF, lexeme := [], literal := Literal.none,
               line := 2 }] : List Token).dropLast, ∃ st e, st ≤ e ∧
      e ≤ (['\n'] : List Char).length ∧
      t.lexeme = pySlice ['\n'] st e ∧
      t.line = 1 + countNL ((['\n'] : List Char).take e)) ∧
    scanTokens "// comment\n123".data = .ok [
      { type := TokenType.NUMBER, lexeme := ['1', '2', '3'],
        literal := Literal.num 123, line := 2 },
      { type := TokenType.EOF, lexeme := [], literal := Literal.none, line := 2 }] :=
  C7_line_counting ['\n']
    [{ type := TokenType.EOF, lexeme := [], literal := Literal.none, line := 2 }]
    (by rfl)

/-- C8 at the fresh scanner on the source `+` (the reflexive reach). -/
theorem C8_state_invariants_witness :
    (initState ['+']).start ≤ (initState ['+']).current ∧
    (initState ['+']).current ≤ (initState ['+']).source.length ∧
    (initState ['+']).line =
      1 + countNL ((initState ['+']).source.take (initState ['+']).current) :=
  C8_state_invariants.2.2 ['+'] (initState ['+']) Relation.ReflTransGen.refl

/-- C9 at the source quote-b-quote with `pre = [b]`. -/
theorem C9_backslash_no_escape_witness :
    scanToken (initState ['"', 'b', '"']) = .ok { initState ['"', 'b', '"'] with
      current := (initState ['"', 'b', '"']).current + 1 +
        (['b'] : List Char).length + 1,
      line := (initState ['"', 'b', '"']).line + countNL ['b'],
      tokens := (initState ['"', 'b', '"']).tokens ++
        [{ type := TokenType.STRING, lexeme := '"' :: (['b'] ++ ['"']),
           literal := Literal.str ['b'],
           line := (initState ['"', 'b', '"']).line + countNL ['b'] }] } :=
  C9_backslash_no_escape.1 (initState ['"', 'b', '"']) ['b'] []
    (by decide) (by decide) (by decide) (by decide)

/-- C10 at the instance state left by scanning the source `+`. -/
theorem C10_not_idempotent_witness :
    ∃ s2, scanTokensMethod
        { source := ['+'],
          tokens := [{ type := TokenType.PLUS, lexeme := ['+'],
                       literal := Literal.none, line := 1 },
                     { type := TokenType.EOF, lexeme := [],
                       literal := Literal.none, line := 1 }],
          start := 0, current := 1, line := 1 } = .ok s2 ∧
      s2.tokens.length = 2 + 1 ∧
      s2.tokens.getLast? =
        some { type := TokenType.EOF, lexeme := [], literal := Literal.none,
               line := 1 } ∧
      s2.tokens.dropLast.getLast? =
        some { type := TokenType.EOF, lexeme := [], literal := Literal.none,
               line := 1 } :=
  C10_not_idempotent ['+']
    { source := ['+'],
      tokens := [{ type := TokenType.PLUS, lexeme := ['+'],
                   literal := Literal.none, line := 1 },
                 { type := TokenType.EOF, lexeme := [],
                   literal := Literal.none, line := 1 }],
      start := 0, current := 1, line := 1 }
    (by rfl)

end PoxScanner
